import Mathlib

/-!
Verification development for the gotmplfmt repository: a whitespace
formatter for Go-template-style documents.  The pipeline under study is
tokenizer → recursive-descent parser → AST → printer, embedded shallowly:
the parser (`src/internal/parse/parse.go`) and the node model / printer
(`src/internal/parse/node.go`) are translated function by function; the
tokenizer (`lex.go`, absent from the excerpted sources) is modelled from
the specification.  Strings are modelled as `List Char` and positions as
character offsets (the sources use byte offsets; all inputs considered
here are ASCII, where the two coincide).
-/

set_option maxRecDepth 10000
set_option maxHeartbeats 2000000

namespace GoTmplFmt

/-- Abbreviation for the character-list representation of strings. -/
def str (s : String) : List Char := s.data

/-- Count newline characters in a character list. -/
def countNL (s : List Char) : Nat := (s.filter (fun c => c = '\n')).length

/-- Whether `pre` is a leading segment of `s`. -/
def starts (pre s : List Char) : Bool :=
  match pre, s with
  | [], _ => true
  | _ :: _, [] => false
  | p :: ps, c :: cs => p = c && starts ps cs

/-- Index of the first occurrence of `pat` in `s`, if any. -/
def findSub (pat : List Char) : List Char → Option Nat
  | [] => if pat = [] then some 0 else none
  | c :: cs =>
    if starts pat (c :: cs) then some 0
    else match findSub pat cs with
      | some i => some (i + 1)
      | none => none

/-- Index of the last occurrence of `pat` in `s`, if any
(mirrors strings.LastIndex). -/
def lastSub (pat s : List Char) : Option Nat :=
  match s with
  | [] => if pat = [] then some 0 else none
  | c :: cs =>
    match lastSub pat cs with
    | some i => some (i + 1)
    | none => if starts pat (c :: cs) then some 0 else none

/-- Whitespace characters recognized by the tokenizer. -/
def isSpaceC (c : Char) : Bool :=
  c = ' ' || c = '\t' || c = '\r' || c = '\n'

/-- ASCII decimal digit test. -/
def isDigitC (c : Char) : Bool := '0' ≤ c && c ≤ '9'

/-- ASCII hexadecimal digit test. -/
def isHexC (c : Char) : Bool :=
  isDigitC c || ('a' ≤ c && c ≤ 'f') || ('A' ≤ c && c ≤ 'F')

/-- Letter or underscore, the characters that may start an identifier. -/
def isAlphaC (c : Char) : Bool :=
  c = '_' || ('a' ≤ c && c ≤ 'z') || ('A' ≤ c && c ≤ 'Z')

/-- Identifier continuation character. -/
def isAlnumC (c : Char) : Bool := isAlphaC c || isDigitC c

/-- Trim flags carried by delimiter tokens: whether the delimiter was
written with a whitespace-trim marker on its left or right side. -/
structure Trim where
  left : Bool
  right : Bool
deriving DecidableEq, Repr

/-- Modelled from the spec: the left delimiter re-emitted by the printer,
spaced form, honoring the trim flag (from the missing lex.go). -/
def Trim.leftDelim (t : Trim) : List Char :=
  if t.left then str "\x7b\x7b- " else str "\x7b\x7b "

/-- Modelled from the spec: the right delimiter re-emitted by the printer,
with its conventional leading space (from the missing lex.go). -/
def Trim.rightDelim (t : Trim) : List Char :=
  if t.right then str " -\x7d\x7d" else str " \x7d\x7d"

/-- Modelled from the spec: the right delimiter without the leading space,
used when the closing delimiter sits on its own line (from the missing
lex.go). -/
def Trim.rightDelimNoSpace (t : Trim) : List Char :=
  if t.right then str "-\x7d\x7d" else str "\x7d\x7d"

/-- Modelled from the spec: the length of leading whitespace of a line
(helper leftTrimLength from the missing lex.go). -/
def leftTrimLength (s : List Char) : Nat :=
  (s.takeWhile (fun c => isSpaceC c)).length

/-- Token kinds, mirroring the item types of the tokenizer: text, comment,
delimiters, parentheses, pipe, space, identifier, field access, variable,
dot, nil, bool, number, character constant, complex number, quoted and raw
strings, keywords (if / else / end / unified block keywords), declare,
assign, single punctuation characters, error, and end of input. -/
inductive ItemType where
  | iText | iComment | iLeftDelim | iRightDelim | iLeftParen | iRightParen
  | iPipe | iSpace | iIdent | iField | iVariable | iDot | iNilT | iBool
  | iNumber | iCharConstant | iComplex | iString | iRawString
  | iIf | iElseT | iEndT | iBranchKw | iDeclare | iAssign | iCharTok
  | iError | iEOF
deriving DecidableEq, Repr

export ItemType (iText iComment iLeftDelim iRightDelim iLeftParen iRightParen
  iPipe iSpace iIdent iField iVariable iDot iNilT iBool iNumber iCharConstant
  iComplex iString iRawString iIf iElseT iEndT iBranchKw iDeclare iAssign
  iCharTok iError iEOF)

/-- A token: kind, raw value, character position, source line (1-based),
and trim flags (meaningful on delimiter tokens). -/
structure Item where
  typ : ItemType
  val : List Char
  pos : Nat
  line : Nat
  trim : Trim
deriving DecidableEq, Repr

/-- The token returned for end of input. -/
def eofItem (pos line : Nat) : Item :=
  ⟨iEOF, [], pos, line, ⟨false, false⟩⟩

/-- An error token carrying a human-readable message. -/
def errItem (msg : List Char) (pos line : Nat) : Item :=
  ⟨iError, msg, pos, line, ⟨false, false⟩⟩

/-- Longest leading run of whitespace characters and the remainder. -/
def scanSpaces (s : List Char) : List Char × List Char :=
  (s.takeWhile (fun c => isSpaceC c), s.dropWhile (fun c => isSpaceC c))

/-- Longest leading run of identifier characters and the remainder. -/
def scanIdent (s : List Char) : List Char × List Char :=
  (s.takeWhile (fun c => isAlnumC c), s.dropWhile (fun c => isAlnumC c))

/-- Longest leading run satisfying `p` together with the remainder,
also accepting underscore digit separators. -/
def scanDigits (p : Char → Bool) (s : List Char) : List Char × List Char :=
  (s.takeWhile (fun c => p c || c = '_'), s.dropWhile (fun c => p c || c = '_'))

/-- Modelled from the spec: numeric-literal scan of the missing lex.go
(integer / float forms with optional sign, hex and decimal mantissas,
exponents, and a trailing imaginary marker).  Returns the consumed
characters and the remainder, or none when no well-formed start of a
number is present. -/
def scanNum (s : List Char) : Option (List Char × List Char) :=
  let (sign, s1) :=
    match s with
    | '+' :: rest => (['+'], rest)
    | '-' :: rest => (['-'], rest)
    | _ => (([] : List Char), s)
  if starts (str "0x") s1 || starts (str "0X") s1 then
    let pre := s1.take 2
    let (digs, s2) := scanDigits isHexC (s1.drop 2)
    let (frac, s3) :=
      match s2 with
      | '.' :: rest =>
        let (d2, r2) := scanDigits isHexC rest
        ('.' :: d2, r2)
      | _ => ([], s2)
    let (expo, s4) :=
      match s3 with
      | 'p' :: rest => match rest with
        | '+' :: r2 => let (d3, r3) := scanDigits isDigitC r2; (['p', '+'] ++ d3, r3)
        | '-' :: r2 => let (d3, r3) := scanDigits isDigitC r2; (['p', '-'] ++ d3, r3)
        | _ => let (d3, r3) := scanDigits isDigitC rest; ('p' :: d3, r3)
      | 'P' :: rest => match rest with
        | '+' :: r2 => let (d3, r3) := scanDigits isDigitC r2; (['P', '+'] ++ d3, r3)
        | '-' :: r2 => let (d3, r3) := scanDigits isDigitC r2; (['P', '-'] ++ d3, r3)
        | _ => let (d3, r3) := scanDigits isDigitC rest; ('P' :: d3, r3)
      | _ => ([], s3)
    if digs = [] && frac = [] then none
    else
      let (im, s5) := match s4 with
        | 'i' :: rest => (['i'], rest)
        | _ => ([], s4)
      some (sign ++ pre ++ digs ++ frac ++ expo ++ im, s5)
  else
    let (digs, s2) := scanDigits isDigitC s1
    let (frac, s3) :=
      match s2 with
      | '.' :: rest =>
        let (d2, r2) := scanDigits isDigitC rest
        ('.' :: d2, r2)
      | _ => ([], s2)
    if digs = [] && frac = ['.'] then none
    else if digs = [] && frac = [] then none
    else
      let (expo, s4) :=
        match s3 with
        | 'e' :: rest => match rest with
          | '+' :: r2 => let (d3, r3) := scanDigits isDigitC r2; (['e', '+'] ++ d3, r3)
          | '-' :: r2 => let (d3, r3) := scanDigits isDigitC r2; (['e', '-'] ++ d3, r3)
          | _ => let (d3, r3) := scanDigits isDigitC rest; ('e' :: d3, r3)
        | 'E' :: rest => match rest with
          | '+' :: r2 => let (d3, r3) := scanDigits isDigitC r2; (['E', '+'] ++ d3, r3)
          | '-' :: r2 => let (d3, r3) := scanDigits isDigitC r2; (['E', '-'] ++ d3, r3)
          | _ => let (d3, r3) := scanDigits isDigitC rest; ('E' :: d3, r3)
        | _ => ([], s3)
      let (im, s5) := match s4 with
        | 'i' :: rest => (['i'], rest)
        | _ => ([], s4)
      some (sign ++ digs ++ frac ++ expo ++ im, s5)

/-- Scan a quoted or character literal body after the opening quote:
consume up to the next unescaped closing quote `q`.  Returns the body
(with the closing quote) and the remainder, or none when unterminated
before the end of input or an unescaped newline. -/
def scanQuoted (q : Char) : List Char → Option (List Char × List Char)
  | [] => none
  | '\\' :: c :: rest =>
    match scanQuoted q rest with
    | some (body, r) => some ('\\' :: c :: body, r)
    | none => none
  | '\n' :: _ => none
  | c :: rest =>
    if c = q then some ([q], rest)
    else match scanQuoted q rest with
      | some (body, r) => some (c :: body, r)
      | none => none

/-- Scan a raw-string body after the opening backquote, up to the next
backquote.  Returns the body (with the closing quote) and the remainder. -/
def scanRaw : List Char → Option (List Char × List Char)
  | [] => none
  | c :: rest =>
    if c = Char.ofNat 96 then some ([c], rest)
    else match scanRaw rest with
      | some (body, r) => some (c :: body, r)
      | none => none

/-- Characters that may legally follow a number or identifier inside an
action. -/
def isTerminator (s : List Char) : Bool :=
  match s with
  | [] => true
  | c :: _ =>
    isSpaceC c || c = '.' || c = ',' || c = '|' || c = ':' || c = ')' ||
    c = '(' || c = '\x7d'

/-- Go-style quoting of a raw value for diagnostics (the %q verb):
wrap in double quotes and escape the common special characters. -/
def goQuoteAux (s : List Char) : List Char :=
  '"' :: (s.flatMap (fun c =>
    if c = '"' then ['\\', '"']
    else if c = '\\' then ['\\', '\\']
    else if c = '\n' then ['\\', 'n']
    else if c = '\t' then ['\\', 't']
    else if c = '\r' then ['\\', 'r']
    else [c])) ++ ['"']

/-- Keyword dispatch for a scanned identifier word: `if`, `else`, `end`,
the unified block keywords, `nil` and the boolean literals; anything else
is a plain identifier. -/
def keywordType (w : List Char) : ItemType :=
  if w = str "if" then iIf
  else if w = str "else" then iElseT
  else if w = str "end" then iEndT
  else if w = str "nil" then iNilT
  else if w = str "true" || w = str "false" then iBool
  else if w = str "range" || w = str "with" || w = str "define" ||
    w = str "block" then iBranchKw
  else iIdent

mutual

/-- Modelled from the spec: text-mode tokenization.  Scans to the next
left delimiter, emitting the intervening text verbatim; a comment action
is emitted as a single token whose value is the raw text between the
delimiters (so that re-emission between delimiters reproduces it,
trim markers included); otherwise a left-delimiter token is emitted with
its trim flag and scanning switches to action mode. -/
def lexText (s : List Char) (pos line : Nat) : Nat → List Item
  | 0 => [eofItem pos line]
  | fuel + 1 =>
    match findSub (str "\x7b\x7b") s with
    | none =>
      if s = [] then [eofItem pos line]
      else [⟨iText, s, pos, line, ⟨false, false⟩⟩, eofItem (pos + s.length) (line + countNL s)]
    | some i =>
      let txt := s.take i
      let pre : List Item :=
        if i = 0 then [] else [⟨iText, txt, pos, line, ⟨false, false⟩⟩]
      let dpos := pos + i
      let dline := line + countNL txt
      let after := s.drop (i + 2)
      let (trimL, rest1) :=
        match after with
        | '-' :: r => (true, r)
        | _ => (false, after)
      let (sp, rest2) := scanSpaces rest1
      if starts (str "/*") rest2 then
        match findSub (str "*/") rest2 with
        | none => pre ++ [errItem (str "unclosed comment") dpos dline]
        | some j =>
          let afterC := rest2.drop (j + 2)
          let (sp2, afterC2) := scanSpaces afterC
          let (_, afterC3) :=
            match afterC2 with
            | '-' :: r => (true, r)
            | _ => (false, afterC2)
          if starts (str "\x7d\x7d") afterC3 then
            let rest := afterC3.drop 2
            let consumed := i + 2 + (after.length - rest.length)
            let cval := after.take (after.length - rest.length - 2)
            pre ++
              ⟨iComment, cval, dpos, dline, ⟨false, false⟩⟩ ::
              lexText rest (pos + consumed) (line + countNL (s.take consumed)) fuel
          else
            pre ++ [errItem (str "comment ends before closing delimiter") dpos
              (dline + countNL (sp ++ (str "/*") ++ rest2.take j ++ sp2))]
      else
        pre ++
          ⟨iLeftDelim, str "\x7b\x7b", dpos, dline, ⟨trimL, false⟩⟩ ::
          lexInside rest1 (dpos + 2 + (if trimL then 1 else 0)) dline fuel

/-- Modelled from the spec: action-mode tokenization.  Emits operator,
space, literal, identifier and keyword tokens until the matching right
delimiter (with its trim flag) returns scanning to text mode; running out
of input yields an error token for the unclosed action. -/
def lexInside (s : List Char) (pos line : Nat) : Nat → List Item
  | 0 => [eofItem pos line]
  | fuel + 1 =>
    match s with
    | [] => [errItem (str "unclosed action") pos line]
    | c :: cs =>
      if starts (str "-\x7d\x7d") s then
        ⟨iRightDelim, str "\x7d\x7d", pos, line, ⟨false, true⟩⟩ ::
          lexText (s.drop 3) (pos + 3) line fuel
      else if starts (str "\x7d\x7d") s then
        ⟨iRightDelim, str "\x7d\x7d", pos, line, ⟨false, false⟩⟩ ::
          lexText (s.drop 2) (pos + 2) line fuel
      else if isSpaceC c then
        let (sp, rest) := scanSpaces s
        ⟨iSpace, sp, pos, line, ⟨false, false⟩⟩ ::
          lexInside rest (pos + sp.length) (line + countNL sp) fuel
      else if starts (str ":=") s then
        ⟨iDeclare, str ":=", pos, line, ⟨false, false⟩⟩ ::
          lexInside (s.drop 2) (pos + 2) line fuel
      else if c = '=' then
        ⟨iAssign, ['='], pos, line, ⟨false, false⟩⟩ ::
          lexInside cs (pos + 1) line fuel
      else if c = '|' then
        ⟨iPipe, ['|'], pos, line, ⟨false, false⟩⟩ ::
          lexInside cs (pos + 1) line fuel
      else if c = '(' then
        ⟨iLeftParen, ['('], pos, line, ⟨false, false⟩⟩ ::
          lexInside cs (pos + 1) line fuel
      else if c = ')' then
        ⟨iRightParen, [')'], pos, line, ⟨false, false⟩⟩ ::
          lexInside cs (pos + 1) line fuel
      else if c = ',' then
        ⟨iCharTok, [','], pos, line, ⟨false, false⟩⟩ ::
          lexInside cs (pos + 1) line fuel
      else if c = '$' then
        let (w, rest) := scanIdent cs
        ⟨iVariable, '$' :: w, pos, line, ⟨false, false⟩⟩ ::
          lexInside rest (pos + 1 + w.length) line fuel
      else if c = '.' then
        match cs with
        | d :: _ =>
          if isDigitC d then
            match scanNum s with
            | some (numChars, rest) =>
              if isTerminator rest then
                ⟨iNumber, numChars, pos, line, ⟨false, false⟩⟩ ::
                  lexInside rest (pos + numChars.length) line fuel
              else [errItem ((str "bad number syntax: ") ++ goQuoteAux numChars) pos line]
            | none => [errItem ((str "bad number syntax: ") ++ goQuoteAux [c]) pos line]
          else if isAlphaC d then
            let (w, rest) := scanIdent cs
            ⟨iField, '.' :: w, pos, line, ⟨false, false⟩⟩ ::
              lexInside rest (pos + 1 + w.length) line fuel
          else
            ⟨iDot, ['.'], pos, line, ⟨false, false⟩⟩ ::
              lexInside cs (pos + 1) line fuel
        | [] =>
          ⟨iDot, ['.'], pos, line, ⟨false, false⟩⟩ ::
            lexInside cs (pos + 1) line fuel
      else if c = '"' then
        match scanQuoted '"' cs with
        | some (body, rest) =>
          ⟨iString, '"' :: body, pos, line, ⟨false, false⟩⟩ ::
            lexInside rest (pos + 1 + body.length) line fuel
        | none => [errItem (str "unterminated quoted string") pos line]
      else if c = Char.ofNat 96 then
        match scanRaw cs with
        | some (body, rest) =>
          ⟨iRawString, c :: body, pos, line, ⟨false, false⟩⟩ ::
            lexInside rest (pos + 1 + body.length) (line + countNL body) fuel
        | none => [errItem (str "unterminated raw quoted string") pos line]
      else if c = '\'' then
        match scanQuoted '\'' cs with
        | some (body, rest) =>
          ⟨iCharConstant, '\'' :: body, pos, line, ⟨false, false⟩⟩ ::
            lexInside rest (pos + 1 + body.length) line fuel
        | none => [errItem (str "unterminated character constant") pos line]
      else if isDigitC c || ((c = '+' || c = '-') &&
          (match cs with
           | d :: _ => isDigitC d || d = '.'
           | [] => false)) then
        match scanNum s with
        | some (numChars, rest) =>
          match rest with
          | r :: _ =>
            if (r = '+' || r = '-') && !(starts (str "-\x7d\x7d") rest) then
              match scanNum rest with
              | some (num2, rest2) =>
                if num2.getLast? = some 'i' && isTerminator rest2 then
                  ⟨iComplex, numChars ++ num2, pos, line, ⟨false, false⟩⟩ ::
                    lexInside rest2 (pos + numChars.length + num2.length) line fuel
                else [errItem ((str "bad number syntax: ") ++
                  goQuoteAux (numChars ++ num2)) pos line]
              | none => [errItem ((str "bad number syntax: ") ++
                  goQuoteAux numChars) pos line]
            else if isTerminator rest then
              ⟨iNumber, numChars, pos, line, ⟨false, false⟩⟩ ::
                lexInside rest (pos + numChars.length) line fuel
            else [errItem ((str "bad number syntax: ") ++ goQuoteAux numChars) pos line]
          | [] =>
            ⟨iNumber, numChars, pos, line, ⟨false, false⟩⟩ ::
              lexInside rest (pos + numChars.length) line fuel
        | none => [errItem ((str "bad number syntax: ") ++ goQuoteAux [c]) pos line]
      else if isAlphaC c then
        let (w, rest) := scanIdent s
        if isTerminator rest then
          ⟨keywordType w, w, pos, line, ⟨false, false⟩⟩ ::
            lexInside rest (pos + w.length) line fuel
        else [errItem ((str "bad character ") ++ [match rest with | r :: _ => r | [] => c]) pos line]
      else
        [errItem ((str "unrecognized character in action: ") ++ goQuoteAux [c]) pos line]

end

/-- Run the modelled tokenizer over a whole document. -/
def lexAll (s : List Char) : List Item := lexText s 0 1 (s.length + 8)

/-! ### Models of the strconv routines used by the parse package -/

/-- Value of a single digit character in bases up to 16, if valid,
computed from the code point ranges of 0-9, a-f and A-F. -/
def digitVal (c : Char) : Option Nat :=
  let n := c.toNat
  if 48 ≤ n && n ≤ 57 then some (n - 48)
  else if 97 ≤ n && n ≤ 102 then some (n - 87)
  else if 65 ≤ n && n ≤ 70 then some (n - 55)
  else none

/-- Parse a non-empty digit string in the given base (underscores already
removed); none on an invalid or empty digit string. -/
def parseDigits (base : Nat) : List Char → Option Nat
  | [] => none
  | ds => ds.foldl (fun acc c =>
      match acc, digitVal c with
      | some a, some d => if d < base then some (a * base + d) else none
      | _, _ => none) (some 0)

/-- The underscore-placement check of strconv (underscoreOK): an
underscore may only separate successive digits or follow a base prefix,
mirrored as the same state machine over the characters. -/
def underscoreOK (s : List Char) : Bool :=
  let s1 := match s with
    | '+' :: rest => rest
    | '-' :: rest => rest
    | _ => s
  let (hex, sawInit, s2) :=
    match s1 with
    | '0' :: b :: rest =>
      if b = 'x' || b = 'X' then (true, '0', rest)
      else if b = 'b' || b = 'B' || b = 'o' || b = 'O' then (false, '0', rest)
      else (false, '^', s1)
    | _ => (false, '^', s1)
  let step := fun (saw : Char) (c : Char) =>
    if isDigitC c || (hex && isHexC c) then '0'
    else if c = '_' then (if saw = '0' then '_' else '!')
    else if saw = '_' then '!'
    else if saw = '!' then '!'
    else 'x'
  let final := s2.foldl (fun saw c => if saw = '!' then '!' else step saw c) sawInit
  final ≠ '_' && final ≠ '!'

/-- Model of strconv.ParseUint(text, 0, 64): no sign permitted, base
detected from the prefix (0x / 0o / 0b / legacy leading 0 for octal),
underscores allowed per the underscore rule, result below 2^64. -/
def parseUintGo (text : List Char) : Option Nat :=
  if text = [] then none
  else if !underscoreOK text then none
  else
    let t := text.filter (fun c => c ≠ '_')
    let (base, digs) :=
      match t with
      | '0' :: b :: rest =>
        if b = 'x' || b = 'X' then (16, rest)
        else if b = 'o' || b = 'O' then (8, rest)
        else if b = 'b' || b = 'B' then (2, rest)
        else (8, b :: rest)
      | _ => (10, t)
    match parseDigits base digs with
    | none => none
    | some v => if v < 2 ^ 64 then some v else none

/-- Model of strconv.ParseInt(text, 0, 64): an optional sign followed by
an unsigned magnitude, range-checked against int64. -/
def parseIntGo (text : List Char) : Option Int :=
  match text with
  | '-' :: rest =>
    match parseUintGo rest with
    | some v => if v ≤ 2 ^ 63 then some (-(v : Int)) else none
    | none => none
  | '+' :: rest =>
    match parseUintGo rest with
    | some v => if v < 2 ^ 63 then some (v : Int) else none
    | none => none
  | _ =>
    match parseUintGo text with
    | some v => if v < 2 ^ 63 then some (v : Int) else none
    | none => none

/-- Number of halvings of n down to zero (the bit length), by bounded
recursion so that the kernel can evaluate it. -/
def bitlenGo : Nat → Nat → Nat
  | 0, _ => 0
  | f + 1, n => if n = 0 then 0 else bitlenGo f (n / 2) + 1

/-- Bit length of a natural number (0 for 0). -/
def bitlen (n : Nat) : Nat := bitlenGo n n

/-- An exact binary64 value in dyadic form m * 2^e, kept canonical (m odd,
or m = 0 with e = 0) so that equality of values is equality of
representations.  This stands for the float64 values of the sources. -/
structure F64 where
  m : Int
  e : Int
deriving DecidableEq, Repr

/-- Divide out factors of two, canonicalizing a dyadic pair. -/
def stripTwos : Nat → Int → Int → F64
  | 0, m, e => ⟨m, e⟩
  | f + 1, m, e =>
    if m ≠ 0 && m % 2 = 0 then stripTwos f (m / 2) (e + 1) else ⟨m, e⟩

/-- Canonical dyadic representation of m * 2^e. -/
def canonF64 (m e : Int) : F64 :=
  if m = 0 then ⟨0, 0⟩ else stripTwos 1200 m e

/-- The zero float. -/
def F64.zero : F64 := ⟨0, 0⟩

/-- Round the fraction num / den (den positive) to the nearest integer,
ties to even, over naturals. -/
def roundNE (num den : Nat) : Nat :=
  let q := num / den
  let r := num % den
  if 2 * r < den then q
  else if den < 2 * r then q + 1
  else if q % 2 = 0 then q else q + 1

/-- Whether 2^k ≤ p / q for positive p q, by cross-multiplied integer
comparison. -/
def le2pow (k : Int) (p q : Nat) : Bool :=
  if 0 ≤ k then q * 2 ^ k.toNat ≤ p else q ≤ p * 2 ^ (-k).toNat

/-- Round the exact positive fraction p / q to the nearest IEEE-754
binary64 magnitude (ties to even, denormals included), with the given
sign; none on overflow past the largest finite value or on underflow of
a nonzero value to zero (the cases strconv.ParseFloat reports as range
errors). -/
def roundB64Frac (neg : Bool) (p q : Nat) : Option F64 :=
  if p = 0 then some F64.zero
  else
    let k0 : Int := (bitlen p : Int) - (bitlen q : Int)
    let k : Int := if le2pow k0 p q then k0 else k0 - 1
    let sgn : Int := if neg then -1 else 1
    if k < -1022 then
      let m := roundNE (p * 2 ^ 1074) q
      if m = 0 then none else some (canonF64 (sgn * m) (-1074))
    else
      let x : Nat := (52 - k).toNat
      let y : Nat := (k - 52).toNat
      let m := roundNE (p * 2 ^ x) (q * 2 ^ y)
      let mk : Nat × Int := if m = 2 ^ 53 then (2 ^ 52, k + 1) else (m, k)
      if mk.2 > 1023 then none
      else some (canonF64 (sgn * mk.1) (mk.2 - 52))

/-- Round an integer to binary64 (never overflows for the int64 range
used here). -/
def roundB64Int (i : Int) : F64 :=
  (roundB64Frac (i < 0) i.natAbs 1).getD F64.zero

/-- Truncation of a binary64 value toward zero. -/
def f64trunc (f : F64) : Int :=
  if 0 ≤ f.e then f.m * 2 ^ f.e.toNat
  else
    let mag := f.m.natAbs / 2 ^ (-f.e).toNat
    if f.m < 0 then -(mag : Int) else (mag : Int)

/-- Conversion float64 → int64 as the compiled code performs it: exact
truncation when the result fits in int64; the out-of-range cases produce
the platform's indefinite value -2^63. -/
def int64ofFloat (f : F64) : Int :=
  let t := f64trunc f
  if -(2 ^ 63) ≤ t && t < 2 ^ 63 then t else -(2 ^ 63)

/-- Conversion float64 → uint64: exact truncation when the result fits in
uint64; out-of-range cases produce an in-range sentinel (any value other
than the original suffices for the round-trip comparisons in newNumber,
which is all this conversion feeds). -/
def uint64ofFloat (f : F64) : Nat :=
  let t := f64trunc f
  if 0 ≤ t && t < 2 ^ 64 then t.toNat else 2 ^ 63

/-- Conversion int64 → float64: round to nearest binary64. -/
def float64ofInt (i : Int) : F64 := roundB64Int i

/-- Conversion uint64 → float64. -/
def float64ofNat (n : Nat) : F64 := roundB64Int (n : Int)

/-- Model of strconv.ParseFloat(text, 64) restricted to finite results:
decimal and hexadecimal mantissas with optional fraction and exponent,
underscores per the underscore rule, evaluated exactly as a fraction and
rounded to binary64.  The inf / NaN spellings (which can never reach
newNumber through the tokenizer) are not modelled and yield none. -/
def parseFloatQ (text : List Char) : Option F64 :=
  if text = [] then none
  else if !underscoreOK text then none
  else
    let t := text.filter (fun c => c ≠ '_')
    let (neg, t1) :=
      match t with
      | '-' :: rest => (true, rest)
      | '+' :: rest => (false, rest)
      | _ => (false, t)
    if starts (str "0x") t1 || starts (str "0X") t1 then
      let body := t1.drop 2
      let intd := body.takeWhile (fun c => isHexC c)
      let rest1 := body.dropWhile (fun c => isHexC c)
      let (fracd, rest2) :=
        match rest1 with
        | '.' :: r =>
          (r.takeWhile (fun c => isHexC c), r.dropWhile (fun c => isHexC c))
        | _ => ([], rest1)
      if intd = [] && fracd = [] then none
      else
        match rest2 with
        | p :: rest3 =>
          if p = 'p' || p = 'P' then
            let (eneg, rest4) :=
              match rest3 with
              | '-' :: r => (true, r)
              | '+' :: r => (false, r)
              | _ => (false, rest3)
            let ed := rest4.takeWhile (fun c => isDigitC c)
            if ed = [] || rest4.dropWhile (fun c => isDigitC c) ≠ [] then none
            else
              match parseDigits 16 (intd ++ fracd), parseDigits 10 ed with
              | some mant, some ev =>
                let e2 : Int := (if eneg then -(ev : Int) else (ev : Int)) -
                  4 * (fracd.length : Int)
                if 0 ≤ e2 then
                  roundB64Frac neg (mant * 2 ^ e2.toNat) 1
                else
                  roundB64Frac neg mant (2 ^ (-e2).toNat)
              | _, _ => none
          else none
        | [] => none
    else
      let intd := t1.takeWhile (fun c => isDigitC c)
      let rest1 := t1.dropWhile (fun c => isDigitC c)
      let (fracd, rest2) :=
        match rest1 with
        | '.' :: r =>
          (r.takeWhile (fun c => isDigitC c), r.dropWhile (fun c => isDigitC c))
        | _ => ([], rest1)
      if intd = [] && fracd = [] then none
      else
        let cont := fun (e : Int) =>
          match parseDigits 10 (intd ++ fracd) with
          | some mant =>
            let e2 : Int := e - (fracd.length : Int)
            if 0 ≤ e2 then
              roundB64Frac neg (mant * 10 ^ e2.toNat) 1
            else
              roundB64Frac neg mant (10 ^ (-e2).toNat)
          | none => none
        match rest2 with
        | [] => cont 0
        | e :: rest3 =>
          if e = 'e' || e = 'E' then
            let (eneg, rest4) :=
              match rest3 with
              | '-' :: r => (true, r)
              | '+' :: r => (false, r)
              | _ => (false, rest3)
            let ed := rest4.takeWhile (fun c => isDigitC c)
            if ed = [] || rest4.dropWhile (fun c => isDigitC c) ≠ [] then none
            else
              match parseDigits 10 ed with
              | some ev => cont (if eneg then -(ev : Int) else (ev : Int))
              | none => none
          else none

/-- Model of strconv.UnquoteChar: decode one (possibly escaped) character
after the opening quote; returns the decoded code point and the remaining
characters. -/
def unquoteChar (s : List Char) (quote : Char) : Option (Nat × List Char) :=
  match s with
  | [] => none
  | '\\' :: e :: rest =>
    if e = 'n' then some (10, rest)
    else if e = 't' then some (9, rest)
    else if e = 'r' then some (13, rest)
    else if e = 'a' then some (7, rest)
    else if e = 'b' then some (8, rest)
    else if e = 'f' then some (12, rest)
    else if e = 'v' then some (11, rest)
    else if e = '\\' then some (92, rest)
    else if e = '\'' then (if quote = '\'' then some (39, rest) else none)
    else if e = '"' then (if quote = '"' then some (34, rest) else none)
    else if e = 'x' then
      match rest with
      | h1 :: h2 :: r2 =>
        match digitVal h1, digitVal h2 with
        | some d1, some d2 =>
          if isHexC h1 && isHexC h2 then some (d1 * 16 + d2, r2) else none
        | _, _ => none
      | _ => none
    else if e = 'u' then
      match rest with
      | h1 :: h2 :: h3 :: h4 :: r2 =>
        match digitVal h1, digitVal h2, digitVal h3, digitVal h4 with
        | some d1, some d2, some d3, some d4 =>
          if isHexC h1 && isHexC h2 && isHexC h3 && isHexC h4 then
            some (((d1 * 16 + d2) * 16 + d3) * 16 + d4, r2)
          else none
        | _, _, _, _ => none
      | _ => none
    else if '0' ≤ e && e ≤ '7' then
      match rest with
      | o2 :: o3 :: r2 =>
        if '0' ≤ o2 && o2 ≤ '7' && '0' ≤ o3 && o3 ≤ '7' then
          let v := (e.toNat - '0'.toNat) * 64 + (o2.toNat - '0'.toNat) * 8 +
            (o3.toNat - '0'.toNat)
          if v < 256 then some (v, r2) else none
        else none
      | _ => none
    else none
  | '\\' :: [] => none
  | c :: rest =>
    if c = quote || c = '\n' then none else some (c.toNat, rest)

/-- Decode a run of characters up to a closing quote, strconv.Unquote
style. -/
def unquoteBody (quote : Char) : List Char → Nat → Option (List Char)
  | s, fuel + 1 =>
    match s with
    | [] => none
    | c :: rest =>
      if c = quote && rest = [] then some []
      else
        match unquoteChar s quote with
        | some (v, r) =>
          match unquoteBody quote r fuel with
          | some tail => some (Char.ofNat v :: tail)
          | none => none
        | none => none
  | _, 0 => none

/-- Model of strconv.Unquote for the string literal forms the tokenizer
produces: raw backquoted strings (carriage returns dropped) and
double-quoted strings with escape processing. -/
def unquote (s : List Char) : Option (List Char) :=
  match s with
  | c :: rest =>
    if c = Char.ofNat 96 then
      match rest.getLast? with
      | some l =>
        if l = Char.ofNat 96 then
          some ((rest.take (rest.length - 1)).filter (fun ch => ch ≠ '\r'))
        else none
      | none => none
    else if c = '"' then
      unquoteBody '"' rest (rest.length + 1)
    else none
  | [] => none

/-! ### The number node constructor (newNumber, node.go) -/

/-- The data of a NumberNode: the value stored under every numeric type
able to represent it, plus the original text.  Float64 is modelled as the
exact rational value of the binary64; Complex128 as a pair of those. -/
structure NumberData where
  isInt : Bool := false
  isUint : Bool := false
  isFloat : Bool := false
  isComplex : Bool := false
  int64 : Int := 0
  uint64 : Nat := 0
  float64 : F64 := F64.zero
  creal : F64 := F64.zero
  cimag : F64 := F64.zero
  text : List Char := []
deriving DecidableEq, Repr

/-- simplifyComplex: back-fill float / int / uint fields when the
imaginary part is exactly zero (node.go). -/
def simplifyComplex (n : NumberData) : NumberData :=
  let isFloat := n.cimag = F64.zero
  if isFloat then
    let f := n.creal
    let isInt := float64ofInt (int64ofFloat f) = f
    let isUint := float64ofNat (uint64ofFloat f) = f
    { n with
      isFloat := true
      float64 := f
      isInt := isInt
      int64 := if isInt then int64ofFloat f else n.int64
      isUint := isUint
      uint64 := if isUint then uint64ofFloat f else n.uint64 }
  else
    { n with isFloat := false }

/-- Parse a complex literal of the form A±Bi, standing in for the
fmt.Sscan call of newNumber (only the tokenizer's complex token shapes
are ever passed here). -/
def parseComplexQ (text : List Char) : Option (F64 × F64) :=
  match scanNum text with
  | some (fst, rest) =>
    match rest with
    | r :: _ =>
      if r = '+' || r = '-' then
        match scanNum rest with
        | some (snd, rest2) =>
          if rest2 = [] && snd.getLast? = some 'i' then
            match parseFloatQ fst, parseFloatQ (snd.take (snd.length - 1)) with
            | some re, some im => some (re, im)
            | _, _ => none
          else none
        | none => none
      else none
    | [] => none
  | none => none

/-- strings.ContainsAny(text, ".eEpP"): whether the text carries a
fractional or exponent marker. -/
def hasFloatMarker (text : List Char) : Bool :=
  text.any (fun c => c = '.' || c = 'e' || c = 'E' || c = 'p' || c = 'P')

/-- The integer / float tail of newNumber (node.go): unsigned then signed
integer parse with the -0 fixup, float promotion of successful integer
parses, and otherwise a float parse that rejects integer-looking texts as
overflow and back-fills exactly-representable integer values. -/
def newNumberRest (base : NumberData) (text : List Char) :
    Except (List Char) NumberData :=
  let u := parseUintGo text
  let n1 := match u with
    | some v => { base with isUint := true, uint64 := v }
    | none => base
  let n2 := match parseIntGo text with
    | some v =>
      let n := { n1 with isInt := true, int64 := v }
      if v = 0 then { n with isUint := true, uint64 := u.getD 0 } else n
    | none => n1
  let n3 :=
    if n2.isInt then
      Except.ok { n2 with isFloat := true, float64 := float64ofInt n2.int64 }
    else if n2.isUint then
      Except.ok { n2 with isFloat := true, float64 := float64ofNat n2.uint64 }
    else
      match parseFloatQ text with
      | some f =>
        if !(hasFloatMarker text) then
          Except.error ((str "integer overflow: ") ++ goQuoteAux text)
        else
          let na := { n2 with isFloat := true, float64 := f }
          let nb :=
            if !na.isInt && float64ofInt (int64ofFloat f) = f then
              { na with isInt := true, int64 := int64ofFloat f }
            else na
          let nc :=
            if !nb.isUint && float64ofNat (uint64ofFloat f) = f then
              { nb with isUint := true, uint64 := uint64ofFloat f }
            else nb
          Except.ok nc
      | none => Except.ok n2
  match n3 with
  | Except.error e => Except.error e
  | Except.ok n =>
    if !n.isInt && !n.isUint && !n.isFloat then
      Except.error ((str "illegal number syntax: ") ++ goQuoteAux text)
    else Except.ok n

/-- newNumber (node.go): parse the token text into a number tagged with
every representation it legally has, mirroring the source's order of
attempts: char constant, complex, trailing-i imaginary, unsigned then
signed integer (with the -0 fixup), float promotion of integers, float
parse with the disguised-integer-overflow rejection and integer
back-fill, and the final illegal-syntax check. -/
def newNumber (text : List Char) (typ : ItemType) :
    Except (List Char) NumberData :=
  let base : NumberData := { text := text }
  match typ with
  | iCharConstant =>
    match text with
    | q :: rest =>
      match unquoteChar rest q with
      | some (r, tail) =>
        if tail = ['\''] then
          Except.ok { base with
            int64 := (r : Int)
            isInt := true
            uint64 := r
            isUint := true
            float64 := float64ofNat r
            isFloat := true }
        else Except.error ((str "malformed character constant: ") ++ text)
      | none => Except.error ((str "malformed character constant: ") ++ text)
    | [] => Except.error ((str "malformed character constant: ") ++ text)
  | iComplex =>
    match parseComplexQ text with
    | some (re, im) =>
      Except.ok (simplifyComplex { base with
        isComplex := true
        creal := re
        cimag := im })
    | none => Except.error ((str "bad complex number syntax: ") ++ text)
  | _ =>
    if text.getLast? = some 'i' then
      match parseFloatQ (text.take (text.length - 1)) with
      | some f =>
        Except.ok (simplifyComplex { base with
          isComplex := true
          creal := F64.zero
          cimag := f })
      | none => newNumberRest base text
    else newNumberRest base text

/-! ### The AST node model (node.go) -/

/-- Node kinds, mirroring the NodeType constants of node.go (the
lower-case else / end kinds never survive into a finished tree). -/
inductive NTy where
  | ntText | ntAction | ntBool | ntChain | ntCommand | ntDot | ntElse
  | ntEnd | ntField | ntIdent | ntBranch | ntList | ntNil | ntNumber
  | ntPipe | ntString | ntVariable | ntComment
deriving DecidableEq, Repr

export NTy (ntText ntAction ntBool ntChain ntCommand ntDot ntElse ntEnd
  ntField ntIdent ntBranch ntList ntNil ntNumber ntPipe ntString ntVariable
  ntComment)

/-- The AST: one constructor per node struct of node.go.  Child nodes are
stored untyped (as in the Go interface): a pipe's declarations are
variable nodes, its commands command nodes, and a command's arguments
arbitrary operand nodes. -/
inductive Node where
  | nList (pos : Nat) (nodes : List Node)
  | nText (pos : Nat) (text : List Char)
  | nComment (pos : Nat) (text : List Char)
  | nPipe (pos : Nat) (line : Nat) (isAssign : Bool) (decl : List Node)
      (cmds : List Node)
  | nAction (pos : Nat) (line : Nat) (pipe : Node) (trim : Trim)
  | nCommand (pos : Nat) (args : List Node)
  | nIdent (pos : Nat) (ident : List Char)
  | nVariable (pos : Nat) (ident : List (List Char))
  | nDot (pos : Nat)
  | nNil (pos : Nat)
  | nField (pos : Nat) (ident : List (List Char))
  | nChain (pos : Nat) (node : Node) (field : List (List Char))
  | nBool (pos : Nat) (b : Bool)
  | nNumber (pos : Nat) (num : NumberData)
  | nString (pos : Nat) (quoted : List Char) (text : List Char)
  | nEnd (pos : Nat) (trim : Trim)
  | nElse (pos : Nat) (line : Nat) (pipe : Option Node) (list : Node)
      (trim : Trim)
  | nBranch (keyword : List Char) (pos : Nat) (line : Nat) (pipe : Node)
      (list : Node) (elses : List Node) (endn : Node) (trim : Trim)
deriving Repr

/-- The Type() dispatch of node.go. -/
def Node.typeOf : Node → NTy
  | .nList _ _ => ntList
  | .nText _ _ => ntText
  | .nComment _ _ => ntComment
  | .nPipe _ _ _ _ _ => ntPipe
  | .nAction _ _ _ _ => ntAction
  | .nCommand _ _ => ntCommand
  | .nIdent _ _ => ntIdent
  | .nVariable _ _ => ntVariable
  | .nDot _ => ntDot
  | .nNil _ => ntNil
  | .nField _ _ => ntField
  | .nChain _ _ _ => ntChain
  | .nBool _ _ => ntBool
  | .nNumber _ _ => ntNumber
  | .nString _ _ _ => ntString
  | .nEnd _ _ => ntEnd
  | .nElse _ _ _ _ _ => ntElse
  | .nBranch _ _ _ _ _ _ _ _ => ntBranch

/-- The Position() accessor. -/
def Node.posOf : Node → Nat
  | .nList p _ => p
  | .nText p _ => p
  | .nComment p _ => p
  | .nPipe p _ _ _ _ => p
  | .nAction p _ _ _ => p
  | .nCommand p _ => p
  | .nIdent p _ => p
  | .nVariable p _ => p
  | .nDot p => p
  | .nNil p => p
  | .nField p _ => p
  | .nChain p _ _ => p
  | .nBool p _ => p
  | .nNumber p _ => p
  | .nString p _ _ => p
  | .nEnd p _ => p
  | .nElse p _ _ _ _ => p
  | .nBranch _ p _ _ _ _ _ _ => p

/-! ### The printer (node.go) -/

/-- Printer state: accumulated output, the captured indentation of the
current action (prefix), and the indentation depth. -/
structure Pr where
  out : List Char
  pfx : List Char
  depth : Nat
deriving Repr

/-- Append raw characters to the output. -/
def Pr.writeS (p : Pr) (s : List Char) : Pr := { p with out := p.out ++ s }

/-- WritePrefix of node.go: the captured prefix followed by one tab per
indentation level. -/
def Pr.writePfx (p : Pr) : Pr :=
  p.writeS (p.pfx ++ List.replicate p.depth '\t')

/-- whitespacePrefix of node.go: the exact whitespace from the beginning
of the line containing position `pos` up to the last occurrence of the
start token on that line; false if anything before the token on the line
is not pure whitespace (including the mirrored start+1 slice on the first
line). -/
def whitespacePfx (txt : List Char) (pos : Nat) (ltok : List Char) :
    List Char × Bool :=
  let upto := txt.take pos
  let start := match lastSub ['\n'] upto with
    | some i => i
    | none => 0
  let line := upto.drop (start + 1)
  match lastSub ltok line with
  | none => ([], false)
  | some ti =>
    let line2 := line.take ti
    if leftTrimLength line2 = line2.length then (line2, true) else ([], false)

/-- lineno of node.go: the number of newlines before the node's position
in the originating document. -/
def lineno (txt : List Char) (n : Node) : Nat := countNL (txt.take n.posOf)

/-- Join name segments with dots (VariableNode.writeTo). -/
def joinDot (ids : List (List Char)) : List Char :=
  match ids with
  | [] => []
  | i :: rest => i ++ rest.flatMap (fun x => '.' :: x)

mutual

/-- writeTo of node.go, one case per node struct: the recursive
serializer, threaded through the printer state, with the originating
document text passed explicitly (standing for the tree back-reference). -/
def writeTo (txt : List Char) (p : Pr) : Node → Pr
  | .nList _ ns => writeList txt p ns
  | .nText _ t => p.writeS t
  | .nComment _ t =>
    ((p.writeS (str "\x7b\x7b")).writeS t).writeS (str "\x7d\x7d")
  | .nPipe _ _ isAssign decl cmds =>
    let p1 :=
      if !decl.isEmpty then
        (writeDecls txt true p decl).writeS
          (if isAssign then str " = " else str " := ")
      else p
    writeCmds txt true p1 cmds
  | .nAction pos _ pipe trim =>
    let wok := whitespacePfx txt pos (str "\x7b\x7b")
    let p1 := { p with pfx := wok.1 }
    let p2 := p1.writeS trim.leftDelim
    let before := countNL p2.out
    let p3 := { p2 with depth := 1 }
    let p4 := writeTo txt p3 pipe
    let p5 := { p4 with depth := 0 }
    let after := countNL p5.out
    if wok.2 && before ≠ after then
      (((p5.writeS ['\n']).writePfx).writeS trim.rightDelimNoSpace)
    else p5.writeS trim.rightDelim
  | .nCommand _ args =>
    match args with
    | [] => p
    | a :: rest => writeArgs txt p (a :: rest) true 0
  | .nIdent _ ident => p.writeS ident
  | .nVariable _ ident => p.writeS (joinDot ident)
  | .nDot _ => p.writeS ['.']
  | .nNil _ => p.writeS (str "nil")
  | .nField _ ident => p.writeS (ident.flatMap (fun id => '.' :: id))
  | .nChain _ node field =>
    let p1 :=
      match node with
      | .nPipe a b c d e =>
        (writeTo txt (p.writeS ['(']) (Node.nPipe a b c d e)).writeS [')']
      | other => writeTo txt p other
    p1.writeS (field.flatMap (fun f => '.' :: f))
  | .nBool _ b => p.writeS (if b then str "true" else str "false")
  | .nNumber _ num => p.writeS num.text
  | .nString _ quoted _ => p.writeS quoted
  | .nEnd _ trim =>
    ((p.writeS trim.leftDelim).writeS (str "end")).writeS trim.rightDelim
  | .nElse _ _ pipe list trim =>
    let p1 := (p.writeS trim.leftDelim).writeS (str "else")
    let p2 :=
      match pipe with
      | some pp => writeTo txt (p1.writeS (str " if ")) pp
      | none => p1
    writeTo txt (p2.writeS trim.rightDelim) list
  | .nBranch keyword _ _ pipe list elses endn trim =>
    let p1 := ((p.writeS trim.leftDelim).writeS keyword).writeS [' ']
    let p2 := (writeTo txt p1 pipe).writeS trim.rightDelim
    let p3 := writeTo txt p2 list
    let p4 := writeList txt p3 elses
    writeTo txt p4 endn

/-- Serialize each node of a list in order (ListNode.writeTo). -/
def writeList (txt : List Char) (p : Pr) : List Node → Pr
  | [] => p
  | n :: rest => writeList txt (writeTo txt p n) rest

/-- Serialize the declared variables of a pipe, comma-joined
(PipeNode.writeTo, declaration part). -/
def writeDecls (txt : List Char) (first : Bool) (p : Pr) : List Node → Pr
  | [] => p
  | v :: rest =>
    let p1 := if first then p else p.writeS (str ", ")
    writeDecls txt false (writeTo txt p1 v) rest

/-- Serialize the commands of a pipe, joined by the pipe separator
(PipeNode.writeTo, command part). -/
def writeCmds (txt : List Char) (first : Bool) (p : Pr) : List Node → Pr
  | [] => p
  | c :: rest =>
    let p1 := if first then p else p.writeS (str " | ")
    writeCmds txt false (writeTo txt p1 c) rest

/-- Serialize the arguments of a command (CommandNode.writeTo): operands
on the same source line are space-joined; a line increase emits a newline
plus the current prefix; a parenthesized sub-pipe is wrapped and, when
its emission spanned lines, closed after a fresh newline and prefix. -/
def writeArgs (txt : List Char) (p : Pr) (args : List Node) (first : Bool)
    (prevLine : Nat) : Pr :=
  match args with
  | [] => p
  | arg :: rest =>
    let line := lineno txt arg
    let p1 :=
      if first then p
      else if line > prevLine then (p.writeS ['\n']).writePfx
      else p.writeS [' ']
    let p2 :=
      match arg with
      | .nPipe a b c d e =>
        let q1 := p1.writeS ['(']
        let before := countNL q1.out
        let q2 := { q1 with depth := q1.depth + 1 }
        let q3 := writeTo txt q2 (Node.nPipe a b c d e)
        let q4 := { q3 with depth := q3.depth - 1 }
        let after := countNL q4.out
        let q5 :=
          if before ≠ after then (q4.writeS ['\n']).writePfx else q4
        q5.writeS [')']
      | other => writeTo txt p1 other
    writeArgs txt p2 rest false line

end

/-- Serialization of a node from a fresh printer (the String() methods of
node.go). -/
def nodeString (txt : List Char) (n : Node) : List Char :=
  (writeTo txt ⟨[], [], 0⟩ n).out

/-! ### The parser (parse.go) -/

/-- Parser state: the undelivered tokenizer output, the three-token
lookahead buffer with its count, and the line of the left delimiter of
the action being parsed (actionLine). -/
structure PState where
  stream : List Item
  tok0 : Item
  tok1 : Item
  tok2 : Item
  pk : Nat
  actLine : Nat
deriving Repr

/-- A parse error: the line recorded by errorf and the message. -/
structure PErr where
  line : Nat
  msg : List Char
deriving DecidableEq, Repr

/-- Decimal digits of a natural number. -/
def natChars (n : Nat) : List Char := (Nat.repr n).data

/-- Render a parse error the way errorf formats it. -/
def renderErr (e : PErr) : List Char :=
  (str "template: ") ++ natChars e.line ++ (str ": ") ++ e.msg

/-- errorf (parse.go): the reported line is that of the most recently
lexed token (token[0]). -/
def errf (st : PState) (msg : List Char) : PErr := ⟨st.tok0.line, msg⟩

/-- Select a lookahead buffer slot. -/
def tokAt (st : PState) : Nat → Item
  | 0 => st.tok0
  | 1 => st.tok1
  | _ => st.tok2

/-- next (parse.go): deliver a buffered token or fetch a fresh one
(updating token[0]). -/
def pnext (st : PState) : Item × PState :=
  if st.pk > 0 then
    (tokAt st (st.pk - 1), { st with pk := st.pk - 1 })
  else
    match st.stream with
    | it :: rest => (it, { st with stream := rest, tok0 := it })
    | [] => (eofItem 0 0, st)

/-- backup (parse.go). -/
def pbackup (st : PState) : PState := { st with pk := st.pk + 1 }

/-- backup2 (parse.go): the zeroth token is already in the buffer. -/
def pbackup2 (st : PState) (t1 : Item) : PState :=
  { st with tok1 := t1, pk := 2 }

/-- backup3 (parse.go), arguments in push-back order. -/
def pbackup3 (st : PState) (t2 t1 : Item) : PState :=
  { st with tok1 := t1, tok2 := t2, pk := 3 }

/-- peek (parse.go): return without consuming. -/
def ppeek (st : PState) : Item × PState :=
  if st.pk > 0 then (tokAt st (st.pk - 1), st)
  else
    match st.stream with
    | it :: rest => (it, { st with stream := rest, tok0 := it, pk := 1 })
    | [] => (eofItem 0 0, { st with tok0 := eofItem 0 0, pk := 1 })

/-- Bounded loop body for nextNonSpace; the bound is recomputed at each
entry and cannot be exhausted since every step removes a token. -/
def pnextNonSpaceGo : Nat → PState → Item × PState
  | 0, st => (eofItem 0 0, st)
  | fuel + 1, st =>
    let ts := pnext st
    if ts.1.typ = iSpace then pnextNonSpaceGo fuel ts.2 else ts

/-- nextNonSpace (parse.go). -/
def pnextNonSpace (st : PState) : Item × PState :=
  pnextNonSpaceGo (st.pk + st.stream.length + 1) st

/-- peekNonSpace (parse.go). -/
def ppeekNonSpace (st : PState) : Item × PState :=
  let ts := pnextNonSpace st
  (ts.1, pbackup ts.2)

/-- item.String of the tokenizer, used in diagnostics: EOF and error
tokens print specially, keyword tokens in angle brackets, anything else
quoted (long values truncated). -/
def itemDisplay (it : Item) : List Char :=
  if it.typ = iEOF then str "EOF"
  else if it.typ = iError then it.val
  else if it.typ = iIf || it.typ = iElseT || it.typ = iEndT ||
      it.typ = iBranchKw || it.typ = iNilT || it.typ = iDot then
    '<' :: (it.val ++ ['>'])
  else if it.val.length > 10 then goQuoteAux (it.val.take 10) ++ (str "...")
  else goQuoteAux it.val

/-- Whether `suf` is a trailing segment of `s`. -/
def endsWith (suf s : List Char) : Bool := starts suf.reverse s.reverse

/-- unexpected (parse.go): error tokens propagate their own message,
augmented with the start line of the enclosing action when it differs;
other tokens report the grammar context. -/
def unexpectedErr (st : PState) (tok : Item) (context : List Char) : PErr :=
  if tok.typ = iError then
    let extra :=
      if st.actLine ≠ 0 && st.actLine ≠ tok.line then
        if endsWith (str " action") tok.val then
          (str " started at :") ++ natChars st.actLine
        else (str " in action started at :") ++ natChars st.actLine
      else []
    errf st (tok.val ++ extra)
  else
    errf st ((str "unexpected ") ++ itemDisplay tok ++ (str " in ") ++ context)

/-- expect (parse.go): consume the next non-space token and require the
given type. -/
def pexpect (st : PState) (expected : ItemType) (context : List Char) :
    Except PErr (Item × PState) :=
  let ts := pnextNonSpace st
  if ts.1.typ = expected then Except.ok ts
  else Except.error (unexpectedErr ts.2 ts.1 context)

/-- newVariable (node.go): the name split at dots. -/
def newVariable (pos : Nat) (ident : List Char) : Node :=
  Node.nVariable pos (ident.splitOn '.')

/-- newField (node.go): leading period dropped, the rest split at dots. -/
def newField (pos : Nat) (ident : List Char) : Node :=
  Node.nField pos ((ident.drop 1).splitOn '.')

/-- The head argument type of a command node (c.Args[0] in
checkPipeline). -/
def argHeadType (c : Node) : Option NTy :=
  match c with
  | .nCommand _ (a :: _) => some a.typeOf
  | _ => none

/-- Whether a command's leading argument is one of the non-executable
literal kinds rejected in later pipeline stages (checkPipeline). -/
def isBadLead (c : Node) : Bool :=
  match argHeadType c with
  | some t =>
    t = ntBool || t = ntDot || t = ntNil || t = ntNumber || t = ntString
  | none => false

/-- The scan of checkPipeline over the commands after the first: the
first later stage leading with a non-executable operand, reported with
stage numbering starting at 2. -/
def checkStages : List Node → Nat → Option (List Char)
  | [], _ => none
  | c :: cs, i =>
    if isBadLead c then
      some ((str "non executable command in pipeline stage ") ++ natChars (i + 2))
    else checkStages cs (i + 1)

/-- checkPipeline (parse.go): reject empty pipelines, and reject any
stage after the first whose leading argument is a non-executable
literal. -/
def checkPipelineErr (cmds : List Node) (context : List Char) :
    Option (List Char) :=
  match cmds with
  | [] => some ((str "missing value for ") ++ context)
  | _ :: rest => checkStages rest 0

/-- The line stored in a pipe node. -/
def pipeLineOf : Node → Nat
  | .nPipe _ line _ _ _ => line
  | _ => 0

mutual

/-- parse (parse.go): the top-level loop appending text-or-action items
to the root list until EOF, with the space-skipping re-buffering after a
left delimiter; a stray else or end is a hard error. -/
def pParseLoop (txt : List Char) (pos : Nat) (acc : List Node) :
    Nat → PState → Except PErr (Node × PState)
  | 0, _ => Except.error ⟨0, str "out of fuel"⟩
  | fuel + 1, st =>
    let pkst := ppeek st
    if pkst.1.typ = iEOF then Except.ok (Node.nList pos acc.reverse, pkst.2)
    else
      let st2 :=
        if pkst.1.typ = iLeftDelim then
          let ds := pnext pkst.2
          let ns := pnextNonSpace ds.2
          pbackup2 ns.2 ds.1
        else pkst.2
      match pTextOrAction txt fuel st2 with
      | Except.error e => Except.error e
      | Except.ok (n, st3) =>
        if n.typeOf = ntEnd || n.typeOf = ntElse then
          Except.error (errf st3 ((str "unexpected ") ++ nodeString txt n))
        else pParseLoop txt pos (n :: acc) fuel st3

/-- textOrAction (parse.go): text, comment, or a delimited action (with
actionLine bookkeeping). -/
def pTextOrAction (txt : List Char) :
    Nat → PState → Except PErr (Node × PState)
  | 0, _ => Except.error ⟨0, str "out of fuel"⟩
  | fuel + 1, st =>
    let ts := pnextNonSpace st
    let token := ts.1
    match token.typ with
    | iText => Except.ok (Node.nText token.pos token.val, ts.2)
    | iLeftDelim =>
      match pAction txt token.trim fuel { ts.2 with actLine := token.line } with
      | Except.error e => Except.error e
      | Except.ok (n, st2) => Except.ok (n, { st2 with actLine := 0 })
    | iComment => Except.ok (Node.nComment token.pos token.val, ts.2)
    | _ => Except.error (unexpectedErr ts.2 token (str "input"))

/-- action (parse.go): dispatch on the first non-space token after the
left delimiter — else, end, a branch keyword, or a plain pipeline wrapped
as an action node. -/
def pAction (txt : List Char) (trim : Trim) :
    Nat → PState → Except PErr (Node × PState)
  | 0, _ => Except.error ⟨0, str "out of fuel"⟩
  | fuel + 1, st =>
    let ts := pnextNonSpace st
    let token := ts.1
    match token.typ with
    | iElseT => pElseControl txt trim fuel ts.2
    | iEndT => pEndControl trim fuel ts.2
    | iIf => pBranchControl txt token.val trim fuel ts.2
    | iBranchKw => pBranchControl txt token.val trim fuel ts.2
    | _ =>
      let st2 := pbackup ts.2
      let ps := ppeek st2
      match pPipeline txt (str "command") iRightDelim fuel ps.2 with
      | Except.error e => Except.error e
      | Except.ok (pipe, endtok, st3) =>
        Except.ok (Node.nAction ps.1.pos ps.1.line pipe
          ⟨trim.left, endtok.trim.right⟩, st3)

/-- pipeline (parse.go): optional declarations, then commands separated
by pipes until the terminator, which triggers checkPipeline. -/
def pPipeline (txt : List Char) (context : List Char) (endTy : ItemType) :
    Nat → PState → Except PErr (Node × Item × PState)
  | 0, _ => Except.error ⟨0, str "out of fuel"⟩
  | fuel + 1, st =>
    let ts := ppeekNonSpace st
    match pDecls txt context [] false fuel ts.2 with
    | Except.error e => Except.error e
    | Except.ok (decl, isAssign, st2) =>
      pPipeLoop txt context endTy ts.1.pos ts.1.line isAssign decl [] fuel st2

/-- The declaration scan of pipeline (parse.go), including the three-token
lookahead that distinguishes a declared or assigned variable from a plain
variable operand, and the comma-separated second variable legal only in a
range pipeline. -/
def pDecls (txt : List Char) (context : List Char) (acc : List Node)
    (isAssign : Bool) :
    Nat → PState → Except PErr (List Node × Bool × PState)
  | 0, _ => Except.error ⟨0, str "out of fuel"⟩
  | fuel + 1, st =>
    let vs := ppeekNonSpace st
    let v := vs.1
    if v.typ = iVariable then
      let c1 := pnext vs.2
      let tavs := ppeek c1.2
      let tav := tavs.1
      let nxs := ppeekNonSpace tavs.2
      let nx := nxs.1
      if nx.typ = iAssign || nx.typ = iDeclare then
        let c2 := pnextNonSpace nxs.2
        Except.ok (acc ++ [newVariable v.pos v.val], nx.typ = iAssign, c2.2)
      else if nx.typ = iCharTok && nx.val = [','] then
        let c2 := pnextNonSpace nxs.2
        let acc2 := acc ++ [newVariable v.pos v.val]
        if context = str "range" && acc2.length < 2 then
          let ps := ppeekNonSpace c2.2
          if ps.1.typ = iVariable || ps.1.typ = iRightDelim ||
              ps.1.typ = iRightParen then
            pDecls txt context acc2 isAssign fuel ps.2
          else
            Except.error (errf ps.2 (str "range can only initialize variables"))
        else
          Except.error (errf c2.2 ((str "too many declarations in ") ++ context))
      else if tav.typ = iSpace then
        Except.ok (acc, isAssign, pbackup3 nxs.2 v tav)
      else
        Except.ok (acc, isAssign, pbackup2 nxs.2 v)
    else Except.ok (acc, isAssign, vs.2)

/-- The command loop of pipeline (parse.go): the terminator completes the
pipe (after checkPipeline); an operand-starting token begins another
command; anything else is unexpected. -/
def pPipeLoop (txt : List Char) (context : List Char) (endTy : ItemType)
    (pos line : Nat) (isAssign : Bool) (decl : List Node)
    (acc : List Node) :
    Nat → PState → Except PErr (Node × Item × PState)
  | 0, _ => Except.error ⟨0, str "out of fuel"⟩
  | fuel + 1, st =>
    let ts := pnextNonSpace st
    let token := ts.1
    if token.typ = endTy then
      let cmds := acc.reverse
      match checkPipelineErr cmds context with
      | some msg => Except.error (errf ts.2 msg)
      | none =>
        Except.ok (Node.nPipe pos line isAssign decl cmds, token, ts.2)
    else if token.typ = iBool || token.typ = iCharConstant ||
        token.typ = iComplex || token.typ = iDot || token.typ = iField ||
        token.typ = iIdent || token.typ = iNumber || token.typ = iNilT ||
        token.typ = iRawString || token.typ = iString ||
        token.typ = iVariable || token.typ = iLeftParen then
      match pCommand txt fuel (pbackup ts.2) with
      | Except.error e => Except.error e
      | Except.ok (cmd, st2) =>
        pPipeLoop txt context endTy pos line isAssign decl (cmd :: acc) fuel st2
    else Except.error (unexpectedErr ts.2 token context)

/-- command (parse.go): space-separated operands up to a pipe or the
enclosing terminator; an empty command is an error. -/
def pCommand (txt : List Char) :
    Nat → PState → Except PErr (Node × PState)
  | 0, _ => Except.error ⟨0, str "out of fuel"⟩
  | fuel + 1, st =>
    let ps := ppeekNonSpace st
    pCommandLoop txt ps.1.pos [] fuel ps.2

/-- The operand loop of command (parse.go). -/
def pCommandLoop (txt : List Char) (pos : Nat) (acc : List Node) :
    Nat → PState → Except PErr (Node × PState)
  | 0, _ => Except.error ⟨0, str "out of fuel"⟩
  | fuel + 1, st =>
    let ps := ppeekNonSpace st
    match pOperand txt fuel ps.2 with
    | Except.error e => Except.error e
    | Except.ok (opOpt, st2) =>
      let acc2 := match opOpt with
        | some op => op :: acc
        | none => acc
      let ts := pnext st2
      let token := ts.1
      if token.typ = iSpace then pCommandLoop txt pos acc2 fuel ts.2
      else
        let fin := fun (st3 : PState) =>
          if acc2.isEmpty then Except.error (errf st3 (str "empty command"))
          else Except.ok (Node.nCommand pos acc2.reverse, st3)
        if token.typ = iRightDelim || token.typ = iRightParen then
          fin (pbackup ts.2)
        else if token.typ = iPipe then fin ts.2
        else Except.error (unexpectedErr ts.2 token (str "operand"))

/-- operand (parse.go): a term possibly followed by field accesses, which
merge into field or variable nodes, wrap as a chain node, or are rejected
after literal terms. -/
def pOperand (txt : List Char) :
    Nat → PState → Except PErr (Option Node × PState)
  | 0, _ => Except.error ⟨0, str "out of fuel"⟩
  | fuel + 1, st =>
    match pTerm txt fuel st with
    | Except.error e => Except.error e
    | Except.ok (none, st1) => Except.ok (none, st1)
    | Except.ok (some node, st1) =>
      let ps := ppeek st1
      if ps.1.typ = iField then
        let chainPos := ps.1.pos
        match pChainFields [] fuel ps.2 with
        | Except.error e => Except.error e
        | Except.ok (fields, st2) =>
          let chain := Node.nChain chainPos node (fields.map (fun f => f.drop 1))
          match node.typeOf with
          | ntField =>
            Except.ok (some (newField chainPos (nodeString txt chain)), st2)
          | ntVariable =>
            Except.ok (some (newVariable chainPos (nodeString txt chain)), st2)
          | ntBool =>
            Except.error (errf st2 ((str "unexpected . after term ") ++
              goQuoteAux (nodeString txt node)))
          | ntString =>
            Except.error (errf st2 ((str "unexpected . after term ") ++
              goQuoteAux (nodeString txt node)))
          | ntNumber =>
            Except.error (errf st2 ((str "unexpected . after term ") ++
              goQuoteAux (nodeString txt node)))
          | ntNil =>
            Except.error (errf st2 ((str "unexpected . after term ") ++
              goQuoteAux (nodeString txt node)))
          | ntDot =>
            Except.error (errf st2 ((str "unexpected . after term ") ++
              goQuoteAux (nodeString txt node)))
          | _ => Except.ok (some chain, st2)
      else Except.ok (some node, st1)

/-- The field-collecting loop of operand (parse.go): successive field
tokens are added to the chain. -/
def pChainFields (acc : List (List Char)) :
    Nat → PState → Except PErr (List (List Char) × PState)
  | 0, _ => Except.error ⟨0, str "out of fuel"⟩
  | fuel + 1, st =>
    let ps := ppeek st
    if ps.1.typ = iField then
      let ts := pnext ps.2
      pChainFields (acc ++ [ts.1.val]) fuel ts.2
    else Except.ok (acc, ps.2)

/-- term (parse.go): identifiers, dot, nil, variables, fields, booleans,
numeric and string literals, or a parenthesized sub-pipeline; a non-term
token is pushed back and reported as absent. -/
def pTerm (txt : List Char) :
    Nat → PState → Except PErr (Option Node × PState)
  | 0, _ => Except.error ⟨0, str "out of fuel"⟩
  | fuel + 1, st =>
    let ts := pnextNonSpace st
    let token := ts.1
    match token.typ with
    | iIdent => Except.ok (some (Node.nIdent token.pos token.val), ts.2)
    | iDot => Except.ok (some (Node.nDot token.pos), ts.2)
    | iNilT => Except.ok (some (Node.nNil token.pos), ts.2)
    | iVariable => Except.ok (some (newVariable token.pos token.val), ts.2)
    | iField => Except.ok (some (newField token.pos token.val), ts.2)
    | iBool =>
      Except.ok (some (Node.nBool token.pos (token.val = str "true")), ts.2)
    | iCharConstant =>
      match newNumber token.val token.typ with
      | Except.ok num => Except.ok (some (Node.nNumber token.pos num), ts.2)
      | Except.error msg => Except.error (errf ts.2 msg)
    | iComplex =>
      match newNumber token.val token.typ with
      | Except.ok num => Except.ok (some (Node.nNumber token.pos num), ts.2)
      | Except.error msg => Except.error (errf ts.2 msg)
    | iNumber =>
      match newNumber token.val token.typ with
      | Except.ok num => Except.ok (some (Node.nNumber token.pos num), ts.2)
      | Except.error msg => Except.error (errf ts.2 msg)
    | iLeftParen =>
      match pPipeline txt (str "parenthesized pipeline") iRightParen fuel ts.2 with
      | Except.error e => Except.error e
      | Except.ok (pipe, _, st2) => Except.ok (some pipe, st2)
    | iString =>
      match unquote token.val with
      | some s => Except.ok (some (Node.nString token.pos token.val s), ts.2)
      | none => Except.error (errf ts.2 (str "invalid syntax"))
    | iRawString =>
      match unquote token.val with
      | some s => Except.ok (some (Node.nString token.pos token.val s), ts.2)
      | none => Except.error (errf ts.2 (str "invalid syntax"))
    | _ => Except.ok (none, pbackup ts.2)

/-- branchControl (parse.go): guard pipeline, body item list, then else
parts collected until the terminating end node. -/
def pBranchControl (txt : List Char) (keyword : List Char) (trim : Trim) :
    Nat → PState → Except PErr (Node × PState)
  | 0, _ => Except.error ⟨0, str "out of fuel"⟩
  | fuel + 1, st =>
    match pPipeline txt keyword iRightDelim fuel st with
    | Except.error e => Except.error e
    | Except.ok (pipe, tok, st1) =>
      match pItemList txt fuel st1 with
      | Except.error e => Except.error e
      | Except.ok (list, nxt, st2) =>
        match pElses txt [] nxt fuel st2 with
        | Except.error e => Except.error e
        | Except.ok (elses, endn, st3) =>
          Except.ok (Node.nBranch keyword pipe.posOf (pipeLineOf pipe) pipe
            list elses endn ⟨trim.left, tok.trim.right⟩, st3)

/-- The else-collecting loop of branchControl (parse.go): each else node
receives its body item list; the end node terminates the branch. -/
def pElses (txt : List Char) (acc : List Node) (nxt : Node) :
    Nat → PState → Except PErr (List Node × Node × PState)
  | 0, _ => Except.error ⟨0, str "out of fuel"⟩
  | fuel + 1, st =>
    match nxt with
    | .nElse pos line guard _ etrim =>
      match pItemList txt fuel st with
      | Except.error e => Except.error e
      | Except.ok (elist, nxt2, st2) =>
        pElses txt (acc ++ [Node.nElse pos line guard elist etrim]) nxt2 fuel st2
    | .nEnd pos etrim => Except.ok (acc, Node.nEnd pos etrim, st)
    | _ => Except.error (errf st (str "internal error: branch terminator"))

/-- endControl (parse.go). -/
def pEndControl (trim : Trim) :
    Nat → PState → Except PErr (Node × PState)
  | 0, _ => Except.error ⟨0, str "out of fuel"⟩
  | _ + 1, st =>
    match pexpect st iRightDelim (str "end") with
    | Except.error e => Except.error e
    | Except.ok (token, st1) =>
      Except.ok (Node.nEnd token.pos ⟨trim.left, token.trim.right⟩, st1)

/-- elseControl (parse.go): a bare else, or an else-if carrying its own
guard pipeline. -/
def pElseControl (txt : List Char) (trim : Trim) :
    Nat → PState → Except PErr (Node × PState)
  | 0, _ => Except.error ⟨0, str "out of fuel"⟩
  | fuel + 1, st =>
    let ps := ppeekNonSpace st
    if ps.1.typ = iIf then
      let ts := pnext ps.2
      match pPipeline txt (str "else if") iRightDelim fuel ts.2 with
      | Except.error e => Except.error e
      | Except.ok (pipe, eoptok, st2) =>
        Except.ok (Node.nElse ts.1.pos ts.1.line (some pipe)
          (Node.nList 0 []) ⟨trim.left, eoptok.trim.right⟩, st2)
    else
      match pexpect ps.2 iRightDelim (str "else") with
      | Except.error e => Except.error e
      | Except.ok (token, st1) =>
        Except.ok (Node.nElse token.pos token.line none
          (Node.nList 0 []) ⟨trim.left, token.trim.right⟩, st1)

/-- itemList (parse.go): text-or-action items until an else or end node,
which is returned separately; EOF beforehand is an error. -/
def pItemList (txt : List Char) :
    Nat → PState → Except PErr (Node × Node × PState)
  | 0, _ => Except.error ⟨0, str "out of fuel"⟩
  | fuel + 1, st =>
    let ps := ppeekNonSpace st
    pItemListLoop txt ps.1.pos [] fuel ps.2

/-- The item loop of itemList (parse.go). -/
def pItemListLoop (txt : List Char) (pos : Nat) (acc : List Node) :
    Nat → PState → Except PErr (Node × Node × PState)
  | 0, _ => Except.error ⟨0, str "out of fuel"⟩
  | fuel + 1, st =>
    let ps := ppeekNonSpace st
    if ps.1.typ = iEOF then Except.error (errf ps.2 (str "unexpected EOF"))
    else
      match pTextOrAction txt fuel ps.2 with
      | Except.error e => Except.error e
      | Except.ok (n, st2) =>
        if n.typeOf = ntEnd || n.typeOf = ntElse then
          Except.ok (Node.nList pos acc.reverse, n, st2)
        else pItemListLoop txt pos (n :: acc) fuel st2

end

/-- parse (parse.go): root list headed at the first token's position. -/
def pParse (txt : List Char) (fuel : Nat) (st : PState) :
    Except PErr (Node × PState) :=
  let ps := ppeek st
  pParseLoop txt ps.1.pos [] fuel ps.2

/-- Fresh parser state over the token stream of a document. -/
def mkState (items : List Item) : PState :=
  ⟨items, eofItem 0 0, eofItem 0 0, eofItem 0 0, 0, 0⟩

/-- Fuel budget for a document: ample for the nesting depth and loop
lengths reachable from a token stream of this size. -/
def fuelFor (s : List Char) : Nat := 4 * s.length + 64

/-- Parse (parse.go, the package-level entry): the root node of the tree,
or the error formatted by errorf. -/
def ParseC (s : List Char) : Except PErr Node :=
  match pParse s (fuelFor s) (mkState (lexAll s)) with
  | Except.ok (root, _) => Except.ok root
  | Except.error e => Except.error e

/-- Parse followed by the String method of the root, the composition the
fuzz test round-trips. -/
def parseStringC (s : List Char) : Except PErr (List Char) :=
  match ParseC s with
  | Except.ok root => Except.ok (nodeString s root)
  | Except.error e => Except.error e

/-- Format (tmplfmt.go): parse and re-serialize, or report the parse
error. -/
def FormatC (s : List Char) : Except (List Char) (List Char) :=
  match ParseC s with
  | Except.ok root => Except.ok (nodeString s root)
  | Except.error e => Except.error (renderErr e)

/-- Format over ordinary strings. -/
def Format (s : String) : Except String String :=
  match FormatC s.data with
  | Except.ok o => Except.ok (String.mk o)
  | Except.error e => Except.error (String.mk e)

/-- The successful result of Format, when any. -/
def formatOk (s : String) : Option String :=
  match Format s with
  | Except.ok o => some o
  | Except.error _ => none

/-- The error message of Format, when any. -/
def formatErr (s : String) : Option String :=
  match Format s with
  | Except.ok _ => none
  | Except.error e => some e

/-- Substring test built on the first-occurrence search. -/
def hasSub (pat s : List Char) : Bool := (findSub pat s).isSome

/-- The location part of ErrorContext (parse.go): line and column of a
byte position, formatted line:column (the column counts from the start of
the line, or is the position itself on the first line). -/
def errorContextLoc (txt : List Char) (pos : Nat) : List Char :=
  let text := txt.take pos
  let byteNum :=
    match lastSub ['\n'] text with
    | none => pos
    | some i => pos - (i + 1)
  let lineNum := 1 + countNL text
  natChars lineNum ++ ':' :: natChars byteNum

mutual

/-- Whether every list node of the tree is free of else and end children
(the C7 invariant), mutually with the check over child lists. -/
def cleanNode : Node → Bool
  | .nList _ ns => cleanKids ns
  | .nText _ _ => true
  | .nComment _ _ => true
  | .nPipe _ _ _ decl cmds => cleanAll decl && cleanAll cmds
  | .nAction _ _ pipe _ => cleanNode pipe
  | .nCommand _ args => cleanAll args
  | .nIdent _ _ => true
  | .nVariable _ _ => true
  | .nDot _ => true
  | .nNil _ => true
  | .nField _ _ => true
  | .nChain _ node _ => cleanNode node
  | .nBool _ _ => true
  | .nNumber _ _ => true
  | .nString _ _ _ => true
  | .nEnd _ _ => true
  | .nElse _ _ pipe list _ =>
    (match pipe with
     | some p => cleanNode p
     | none => true) && cleanNode list
  | .nBranch _ _ _ pipe list elses endn _ =>
    cleanNode pipe && cleanNode list && cleanAll elses && cleanNode endn

/-- Conjunction of cleanNode over a list of nodes. -/
def cleanAll : List Node → Bool
  | [] => true
  | n :: rest => cleanNode n && cleanAll rest

/-- Conjunction of cleanNode over the children of a list node, also
requiring that no child is an else or end node. -/
def cleanKids : List Node → Bool
  | [] => true
  | n :: rest =>
    n.typeOf ≠ ntEnd && n.typeOf ≠ ntElse && cleanNode n && cleanKids rest

end


/-- The fuel-indexed bundle of clean-output statements for the mutually
recursive parser functions: every node any of them returns satisfies
cleanNode (and the list/else accumulators stay clean). -/
def CleanInv (f : Nat) : Prop :=
  (∀ txt st n st2, pTextOrAction txt f st = Except.ok (n, st2) → cleanNode n = true) ∧
  (∀ txt trim st n st2, pAction txt trim f st = Except.ok (n, st2) → cleanNode n = true) ∧
  (∀ txt ctx endTy st pipe tok st2, pPipeline txt ctx endTy f st = Except.ok (pipe, tok, st2) → cleanNode pipe = true) ∧
  (∀ txt ctx acc b st decl b2 st2, cleanAll acc = true → pDecls txt ctx acc b f st = Except.ok (decl, b2, st2) → cleanAll decl = true) ∧
  (∀ txt ctx endTy pos line b decl acc st pipe tok st2, cleanAll decl = true → cleanAll acc = true → pPipeLoop txt ctx endTy pos line b decl acc f st = Except.ok (pipe, tok, st2) → cleanNode pipe = true) ∧
  (∀ txt st cmd st2, pCommand txt f st = Except.ok (cmd, st2) → cleanNode cmd = true) ∧
  (∀ txt pos acc st cmd st2, cleanAll acc = true → pCommandLoop txt pos acc f st = Except.ok (cmd, st2) → cleanNode cmd = true) ∧
  (∀ txt st op st2, pOperand txt f st = Except.ok (op, st2) → ∀ n, op = some n → cleanNode n = true) ∧
  (∀ txt st op st2, pTerm txt f st = Except.ok (op, st2) → ∀ n, op = some n → cleanNode n = true) ∧
  (∀ txt kw trim st bnode st2, pBranchControl txt kw trim f st = Except.ok (bnode, st2) → cleanNode bnode = true) ∧
  (∀ txt acc nxt st elses endn st2, cleanAll acc = true → cleanNode nxt = true → pElses txt acc nxt f st = Except.ok (elses, endn, st2) → cleanAll elses = true ∧ cleanNode endn = true) ∧
  (∀ txt trim st n st2, pElseControl txt trim f st = Except.ok (n, st2) → cleanNode n = true) ∧
  (∀ txt st list nxt st2, pItemList txt f st = Except.ok (list, nxt, st2) → cleanNode list = true ∧ cleanNode nxt = true) ∧
  (∀ txt pos acc st list nxt st2, cleanKids acc = true → pItemListLoop txt pos acc f st = Except.ok (list, nxt, st2) → cleanNode list = true ∧ cleanNode nxt = true) ∧
  (∀ txt pos acc st root st2, cleanKids acc = true → pParseLoop txt pos acc f st = Except.ok (root, st2) → cleanNode root = true)

/-! ### Theorems -/

/-- C9: formatting the single-line conditional normalizes the delimiters
to their spaced forms and leaves the body text untouched. -/
theorem C9_if_formatting :
    formatOk "\x7b\x7bif .X\x7d\x7da\x7b\x7bend\x7d\x7d" =
      some "\x7b\x7b if .X \x7d\x7da\x7b\x7b end \x7d\x7d" := by
  decide

/-- C4 counterexample: the input of two delimiters around a bare pipe is
rejected by the command loop as an unexpected pipe token, and the
resulting message is not a missing-value error as the claim states. -/
theorem C4_pipe_counterexample :
    formatErr "\x7b\x7b|\x7d\x7d" =
      some "template: 1: unexpected \"|\" in command" ∧
    hasSub (str "missing value")
      (str "template: 1: unexpected \"|\" in command") = false := by
  constructor
  · decide
  · decide

/-- C4 amended: a pipeline that reaches its terminator with zero commands
is rejected with a missing-value error naming the context (empty action
included), while the bare-pipe input fails earlier with an
unexpected-token error. -/
theorem C4_missing_value :
    (∀ ctx : List Char,
      checkPipelineErr [] ctx = some ((str "missing value for ") ++ ctx)) ∧
    formatErr "\x7b\x7b\x7d\x7d" =
      some "template: 1: missing value for command" ∧
    formatErr "\x7b\x7b|\x7d\x7d" =
      some "template: 1: unexpected \"|\" in command" := by
  refine ⟨fun ctx => rfl, ?_, ?_⟩
  · decide
  · decide

/-- C5 counterexample: for a failing input whose offending token sits at
line 2 column 3 (as the ErrorContext location helper computes), the
returned message carries the line alone, not the claimed line:column
pair. -/
theorem C5_no_column_counterexample :
    formatErr "x\nq\x7b\x7b|\x7d\x7d" =
      some "template: 2: unexpected \"|\" in command" ∧
    errorContextLoc (str "x\nq\x7b\x7b|\x7d\x7d") 5 = str "2:3" ∧
    hasSub (str "2:3")
      (str "template: 2: unexpected \"|\" in command") = false := by
  refine ⟨?_, ?_, ?_⟩ <;> decide

/-- C5 amended: every parse error surfaces as the errorf rendering, a
line number plus a short message in the form template: line: message
(the column does not appear; only ErrorContext derives line:column). -/
theorem C5_error_line_only (s m : List Char)
    (h : FormatC s = Except.error m) :
    ∃ line rest,
      m = (str "template: ") ++ natChars line ++ ((str ": ") ++ rest) := by
  unfold FormatC at h
  cases hp : ParseC s with
  | ok root => rw [hp] at h; exact absurd h (by simp)
  | error e =>
    rw [hp] at h
    refine ⟨e.line, e.msg, ?_⟩
    have hm : m = renderErr e := by
      simpa using h.symm
    rw [hm]
    unfold renderErr
    simp

/-- C5 witness: the amended statement at a concrete failing input. -/
theorem C5_error_line_only_witness :
    ∃ line rest,
      str "template: 1: unexpected \"|\" in command" =
        (str "template: ") ++ natChars line ++ ((str ": ") ++ rest) :=
  C5_error_line_only (str "\x7b\x7b|\x7d\x7d")
    (str "template: 1: unexpected \"|\" in command") (by rfl)

/-- The stage scan returns none when no command leads with a literal. -/
theorem checkStages_none_of_all (l : List Node) (k : Nat)
    (h : ∀ c ∈ l, isBadLead c = false) : checkStages l k = none := by
  induction l generalizing k with
  | nil => rfl
  | cons c cs ih =>
    have hc : isBadLead c = false := h c (List.mem_cons_self c cs)
    simp only [checkStages, hc, Bool.false_eq_true, if_false]
    exact ih (k + 1) (fun d hd => h d (List.mem_cons_of_mem c hd))

/-- The stage scan reports the first offending index, shifted by the
running counter plus the constant 2 of checkPipeline. -/
theorem checkStages_first (l : List Node) (i k : Nat) (b : Node)
    (hg : l.get? i = some b) (hb : isBadLead b = true)
    (hfirst : ∀ c ∈ l.take i, isBadLead c = false) :
    checkStages l k =
      some ((str "non executable command in pipeline stage ") ++
        natChars (k + i + 2)) := by
  induction l generalizing i k with
  | nil => simp at hg
  | cons c cs ih =>
    cases i with
    | zero =>
      simp only [List.get?] at hg
      cases hg
      simp [checkStages, hb]
    | succ j =>
      have hc : isBadLead c = false := by
        apply hfirst
        simp [List.take]
      simp only [checkStages, hc, Bool.false_eq_true, if_false]
      have hg2 : cs.get? j = some b := by simpa using hg
      have hf2 : ∀ d ∈ cs.take j, isBadLead d = false := by
        intro d hd
        exact hfirst d (by simp [List.take, hd])
      have hres := ih j (k + 1) hg2 hf2
      have harith : k + 1 + j + 2 = k + (j + 1) + 2 := by omega
      rw [harith] at hres
      exact hres

/-- C6: in a multi-stage pipeline only the first command may lead with a
non-executable literal — a pipe whose later commands all lead with
executable operands passes checkPipeline, while the first later command
leading with a bool / dot / nil / number / string literal is rejected
with a message naming that stage (numbered from 1, so the first
offending later stage is reported as 2 or higher); end to end, the input
with a boolean second stage fails naming stage 2. -/
theorem C6_nonexecutable_stage (ctx : List Char) (c0 : Node)
    (rest : List Node) :
    ((∀ c ∈ rest, isBadLead c = false) →
      checkPipelineErr (c0 :: rest) ctx = none) ∧
    (∀ i b, rest.get? i = some b → isBadLead b = true →
      (∀ c ∈ rest.take i, isBadLead c = false) →
      checkPipelineErr (c0 :: rest) ctx =
        some ((str "non executable command in pipeline stage ") ++
          natChars (i + 2))) ∧
    formatErr "\x7b\x7bf|true\x7d\x7d" =
      some "template: 1: non executable command in pipeline stage 2" := by
  refine ⟨?_, ?_, by decide⟩
  · intro h
    simp only [checkPipelineErr]
    exact checkStages_none_of_all rest 0 h
  · intro i b hg hb hf
    simp only [checkPipelineErr]
    have := checkStages_first rest i 0 b hg hb hf
    simpa using this

/-- C6 witness: checkPipeline at concrete pipes — a boolean-led second
stage is rejected as stage 2, and an identifier-led second stage is
accepted. -/
theorem C6_nonexecutable_stage_witness :
    checkPipelineErr
      [Node.nCommand 0 [Node.nIdent 0 (str "f")],
       Node.nCommand 2 [Node.nBool 2 true]] (str "command") =
      some ((str "non executable command in pipeline stage ") ++
        natChars 2) ∧
    checkPipelineErr
      [Node.nCommand 0 [Node.nIdent 0 (str "f")],
       Node.nCommand 2 [Node.nIdent 2 (str "g")]] (str "command") =
      none := by
  constructor
  · exact (C6_nonexecutable_stage (str "command")
      (Node.nCommand 0 [Node.nIdent 0 (str "f")])
      [Node.nCommand 2 [Node.nBool 2 true]]).2.1 0
      (Node.nCommand 2 [Node.nBool 2 true]) (by rfl) (by rfl)
      (by intro c hc; simp at hc)
  · exact (C6_nonexecutable_stage (str "command")
      (Node.nCommand 0 [Node.nIdent 0 (str "f")])
      [Node.nCommand 2 [Node.nIdent 2 (str "g")]]).1
      (by intro c hc; simp at hc; subst hc; rfl)

/-- C8: a numeric literal that fails both integer parses yet parses as a
float is rejected as disguised integer overflow when it carries no
fractional or exponent marker, and otherwise accepted as a float with the
integer fields back-filled exactly when the float round-trips through the
integer conversions. -/
theorem C8_integer_overflow (text : List Char) (f : F64)
    (hu : parseUintGo text = none) (hi : parseIntGo text = none)
    (hf : parseFloatQ text = some f) (hni : text.getLast? ≠ some 'i') :
    (hasFloatMarker text = false →
      newNumber text iNumber =
        Except.error ((str "integer overflow: ") ++ goQuoteAux text)) ∧
    (hasFloatMarker text = true →
      ∃ nd, newNumber text iNumber = Except.ok nd ∧ nd.isFloat = true ∧
        nd.float64 = f ∧
        (nd.isInt = true ↔ float64ofInt (int64ofFloat f) = f) ∧
        (nd.isInt = true → nd.int64 = int64ofFloat f) ∧
        (nd.isUint = true ↔ float64ofNat (uint64ofFloat f) = f) ∧
        (nd.isUint = true → nd.uint64 = uint64ofFloat f)) := by
  have hmain : newNumber text iNumber = newNumberRest { text := text } text := by
    simp only [newNumber]
    rw [if_neg hni]
  rw [hmain]
  unfold newNumberRest
  rw [hu, hi, hf]
  constructor
  · intro hm
    simp [hm]
  · intro hm
    by_cases h1 : float64ofInt (int64ofFloat f) = f <;>
      by_cases h2 : float64ofNat (uint64ofFloat f) = f <;>
        simp [hm, h1, h2]

/-- C8 witness: the literal 09 (invalid octal, so both integer parses
fail, yet a valid float with no marker) is rejected as integer overflow,
while 1e2 (same integer failures, exponent marker present) is accepted as
the float 100. -/
theorem C8_integer_overflow_witness :
    newNumber (str "09") iNumber =
      Except.error ((str "integer overflow: ") ++ goQuoteAux (str "09")) ∧
    ∃ nd, newNumber (str "1e2") iNumber = Except.ok nd ∧
      nd.isFloat = true ∧ nd.float64 = float64ofNat 100 := by
  constructor
  · exact (C8_integer_overflow (str "09") ⟨9, 0⟩ (by decide) (by decide)
      (by decide) (by decide)).1 (by decide)
  · obtain ⟨nd, h, hfl, hval, _⟩ :=
      (C8_integer_overflow (str "1e2") ⟨25, 2⟩ (by decide) (by decide)
        (by decide) (by decide)).2 (by decide)
    refine ⟨nd, h, hfl, ?_⟩
    rw [hval]
    decide

/-- The tokenizer on a document without a left delimiter: one verbatim
text token (when nonempty) followed by end of input. -/
theorem lexText_noDelim (s : List Char) (pos line f : Nat)
    (h : findSub (str "\x7b\x7b") s = none) :
    lexText s pos line (f + 1) =
      if s = [] then [eofItem pos line]
      else [⟨iText, s, pos, line, ⟨false, false⟩⟩,
        eofItem (pos + s.length) (line + countNL s)] := by
  simp only [lexText, h]

/-- Parsing a document without a left delimiter yields the root list with
the single verbatim text node (empty document: the empty list). -/
theorem parse_noDelim (s : List Char)
    (h : findSub (str "\x7b\x7b") s = none) :
    ParseC s =
      Except.ok (Node.nList 0 (if s = [] then [] else [Node.nText 0 s])) := by
  obtain ⟨f, hf⟩ : ∃ f, s.length + 8 = f + 1 := ⟨s.length + 7, by omega⟩
  obtain ⟨g, hg⟩ : ∃ g, fuelFor s = g + 2 := ⟨4 * s.length + 62, by
    unfold fuelFor; omega⟩
  unfold ParseC lexAll
  rw [hf, lexText_noDelim s 0 1 f h, hg]
  by_cases hs : s = []
  · subst hs
    simp [pParse, pParseLoop, mkState, ppeek, tokAt, eofItem]
  · simp only [hs, if_false]
    simp [pParse, pParseLoop, pTextOrAction, mkState, ppeek, ppeekNonSpace,
      pnext, pnextNonSpace, pnextNonSpaceGo, pbackup, tokAt, eofItem,
      Node.typeOf]

/-- C10 (implicit): the printer emits text nodes verbatim, so a document
containing no left delimiter (the empty document included) formats
successfully to itself. -/
theorem C10_no_delim_identity (s : String)
    (h : hasSub (str "\x7b\x7b") s.data = false) :
    Format s = Except.ok s := by
  obtain ⟨data⟩ := s
  have hnone : findSub (str "\x7b\x7b") data = none := by
    unfold hasSub at h
    cases hfind : findSub (str "\x7b\x7b") data with
    | none => rfl
    | some i => rw [hfind] at h; simp at h
  simp only [Format, FormatC, String.data]
  rw [parse_noDelim data hnone]
  by_cases hs : data = []
  · subst hs
    simp [nodeString, writeTo, writeList, Pr.writeS]
  · simp only [hs, if_false]
    simp [nodeString, writeTo, writeList, Pr.writeS]


/-- cleanAll distributes over append. -/
theorem cleanAll_append (l1 l2 : List Node) :
    cleanAll (l1 ++ l2) = (cleanAll l1 && cleanAll l2) := by
  induction l1 with
  | nil => simp [cleanAll]
  | cons n rest ih => simp [cleanAll, ih, Bool.and_assoc]

/-- cleanAll is invariant under reversal. -/
theorem cleanAll_reverse (l : List Node) :
    cleanAll l.reverse = cleanAll l := by
  induction l with
  | nil => rfl
  | cons n rest ih =>
    simp [List.reverse_cons, cleanAll_append, cleanAll, ih, Bool.and_comm]

/-- cleanKids distributes over append. -/
theorem cleanKids_append (l1 l2 : List Node) :
    cleanKids (l1 ++ l2) = (cleanKids l1 && cleanKids l2) := by
  induction l1 with
  | nil => simp [cleanKids]
  | cons n rest ih => simp [cleanKids, ih, Bool.and_assoc]

/-- cleanKids is invariant under reversal. -/
theorem cleanKids_reverse (l : List Node) :
    cleanKids l.reverse = cleanKids l := by
  induction l with
  | nil => rfl
  | cons n rest ih =>
    simp [List.reverse_cons, cleanKids_append, cleanKids, ih, Bool.and_comm]

/-- endControl always returns a clean end node. -/
theorem pEndControl_clean (trim : Trim) (fuel : Nat) (st : PState)
    (n : Node) (st2 : PState)
    (h : pEndControl trim fuel st = Except.ok (n, st2)) :
    cleanNode n = true := by
  cases fuel with
  | zero => simp [pEndControl] at h
  | succ f =>
    simp only [pEndControl] at h
    cases hx : pexpect st iRightDelim (str "end") with
    | error e => rw [hx] at h; simp at h
    | ok ts =>
      rw [hx] at h
      cases h
      rfl

theorem step_TOA (f : Nat)
    (ihAct : ∀ txt trim st n st2, pAction txt trim f st = Except.ok (n, st2) → cleanNode n = true) :
    ∀ txt st n st2, pTextOrAction txt (f + 1) st = Except.ok (n, st2) → cleanNode n = true := by
  intro txt st n st2 h
  simp only [pTextOrAction] at h
  split at h
  · cases h; rfl
  · split at h
    · simp at h
    · rename_i n2 st3 hact
      cases h
      exact ihAct _ _ _ _ _ hact
  · cases h; rfl
  · simp at h


set_option maxHeartbeats 1000000 in
theorem step_Act (f : Nat)
    (ihElseC : ∀ txt trim st n st2, pElseControl txt trim f st = Except.ok (n, st2) → cleanNode n = true)
    (ihBr : ∀ txt kw trim st b st2, pBranchControl txt kw trim f st = Except.ok (b, st2) → cleanNode b = true)
    (ihPipe : ∀ txt ctx endTy st pipe tok st2, pPipeline txt ctx endTy f st = Except.ok (pipe, tok, st2) → cleanNode pipe = true) :
    ∀ txt trim st n st2, pAction txt trim (f + 1) st = Except.ok (n, st2) → cleanNode n = true := by
  intro txt trim st n st2 h
  simp only [pAction] at h
  split at h
  · exact ihElseC _ _ _ _ _ h
  · exact pEndControl_clean _ _ _ _ _ h
  · exact ihBr _ _ _ _ _ _ h
  · exact ihBr _ _ _ _ _ _ h
  · split at h
    · simp at h
    · rename_i pipe endtok st3 hpipe
      cases h
      simpa [cleanNode] using ihPipe _ _ _ _ _ _ _ hpipe


set_option maxHeartbeats 1000000 in
theorem step_Pipe (f : Nat)
    (ihDecls : ∀ txt ctx acc b st decl b2 st2, cleanAll acc = true → pDecls txt ctx acc b f st = Except.ok (decl, b2, st2) → cleanAll decl = true)
    (ihPLoop : ∀ txt ctx endTy pos line b decl acc st pipe tok st2, cleanAll decl = true → cleanAll acc = true → pPipeLoop txt ctx endTy pos line b decl acc f st = Except.ok (pipe, tok, st2) → cleanNode pipe = true) :
    ∀ txt ctx endTy st pipe tok st2, pPipeline txt ctx endTy (f + 1) st = Except.ok (pipe, tok, st2) → cleanNode pipe = true := by
  intro txt ctx endTy st pipe tok st2 h
  simp only [pPipeline] at h
  split at h
  · simp at h
  · rename_i decl b st3 hdecl
    have h0 : cleanAll ([] : List Node) = true := rfl
    have hd : cleanAll decl = true := ihDecls _ _ _ _ _ _ _ _ h0 hdecl
    exact ihPLoop _ _ _ _ _ _ _ _ _ _ _ _ hd h0 h


theorem step_Decls (f : Nat)
    (ihDecls : ∀ txt ctx acc b st decl b2 st2, cleanAll acc = true → pDecls txt ctx acc b f st = Except.ok (decl, b2, st2) → cleanAll decl = true) :
    ∀ txt ctx acc b st decl b2 st2, cleanAll acc = true → pDecls txt ctx acc b (f + 1) st = Except.ok (decl, b2, st2) → cleanAll decl = true := by
  intro txt ctx acc b st decl b2 st2 hacc h
  simp only [pDecls] at h
  rcases hvs : ppeekNonSpace st with ⟨v, st1⟩
  rw [hvs] at h
  dsimp only at h
  split at h
  · rcases hc1 : pnext st1 with ⟨c1t, stA⟩
    rw [hc1] at h
    dsimp only at h
    rcases htav : ppeek stA with ⟨tav, stB⟩
    rw [htav] at h
    dsimp only at h
    rcases hnx : ppeekNonSpace stB with ⟨nx, stC⟩
    rw [hnx] at h
    dsimp only at h
    split at h
    · rcases hc2 : pnextNonSpace stC with ⟨c2t, stD⟩
      rw [hc2] at h
      dsimp only at h
      cases h
      simp [cleanAll_append, cleanAll, hacc, newVariable, cleanNode]
    · split at h
      · rcases hc2 : pnextNonSpace stC with ⟨c2t, stD⟩
        rw [hc2] at h
        dsimp only at h
        split at h
        · rcases hps : ppeekNonSpace stD with ⟨ps, stE⟩
          rw [hps] at h
          dsimp only at h
          split at h
          · refine ihDecls _ _ _ _ _ _ _ _ ?_ h
            simp [cleanAll_append, cleanAll, hacc, newVariable, cleanNode]
          · simp at h
        · simp at h
      · split at h
        · cases h; exact hacc
        · cases h; exact hacc
  · cases h; exact hacc


theorem step_PLoop (f : Nat)
    (ihCmd : ∀ txt st cmd st2, pCommand txt f st = Except.ok (cmd, st2) → cleanNode cmd = true)
    (ihPLoop : ∀ txt ctx endTy pos line b decl acc st pipe tok st2, cleanAll decl = true → cleanAll acc = true → pPipeLoop txt ctx endTy pos line b decl acc f st = Except.ok (pipe, tok, st2) → cleanNode pipe = true) :
    ∀ txt ctx endTy pos line b decl acc st pipe tok st2, cleanAll decl = true → cleanAll acc = true → pPipeLoop txt ctx endTy pos line b decl acc (f + 1) st = Except.ok (pipe, tok, st2) → cleanNode pipe = true := by
  intro txt ctx endTy pos line b decl acc st pipe tok st2 hdecl hacc h
  simp only [pPipeLoop] at h
  rcases hts : pnextNonSpace st with ⟨token, st1⟩
  rw [hts] at h
  dsimp only at h
  split at h
  · split at h
    · simp at h
    · cases h
      simp [cleanNode, cleanAll_reverse, hdecl, hacc]
  · split at h
    · split at h
      · simp at h
      · rename_i cmd stB hcmd
        refine ihPLoop _ _ _ _ _ _ _ _ _ _ _ _ hdecl ?_ h
        simp [cleanAll, ihCmd _ _ _ _ hcmd, hacc]
    · simp at h

theorem step_Cmd (f : Nat)
    (ihCmdLoop : ∀ txt pos acc st cmd st2, cleanAll acc = true → pCommandLoop txt pos acc f st = Except.ok (cmd, st2) → cleanNode cmd = true) :
    ∀ txt st cmd st2, pCommand txt (f + 1) st = Except.ok (cmd, st2) → cleanNode cmd = true := by
  intro txt st cmd st2 h
  simp only [pCommand] at h
  refine ihCmdLoop _ _ _ _ _ _ ?_ h
  rfl

theorem step_CmdLoop (f : Nat)
    (ihOp : ∀ txt st op st2, pOperand txt f st = Except.ok (op, st2) → ∀ n, op = some n → cleanNode n = true)
    (ihCmdLoop : ∀ txt pos acc st cmd st2, cleanAll acc = true → pCommandLoop txt pos acc f st = Except.ok (cmd, st2) → cleanNode cmd = true) :
    ∀ txt pos acc st cmd st2, cleanAll acc = true → pCommandLoop txt pos acc (f + 1) st = Except.ok (cmd, st2) → cleanNode cmd = true := by
  intro txt pos acc st cmd st2 hacc h
  simp only [pCommandLoop] at h
  rcases hps : ppeekNonSpace st with ⟨pk, stA⟩
  rw [hps] at h
  dsimp only at h
  split at h
  · simp at h
  · rename_i opOpt stB hop
    cases opOpt with
    | none =>
      dsimp only at h
      rcases hts : pnext stB with ⟨token, stC⟩
      rw [hts] at h
      dsimp only at h
      split at h
      · exact ihCmdLoop _ _ _ _ _ _ hacc h
      · split at h
        · split at h
          · simp at h
          · cases h
            simpa [cleanNode, cleanAll_reverse] using hacc
        · split at h
          · split at h
            · simp at h
            · cases h
              simpa [cleanNode, cleanAll_reverse] using hacc
          · simp at h
    | some op =>
      dsimp only at h
      have hacc2 : cleanAll (op :: acc) = true := by
        simp [cleanAll, ihOp _ _ _ _ hop op rfl, hacc]
      rcases hts : pnext stB with ⟨token, stC⟩
      rw [hts] at h
      dsimp only at h
      split at h
      · exact ihCmdLoop _ _ _ _ _ _ hacc2 h
      · split at h
        · split at h
          · simp at h
          · cases h
            simp [cleanNode, cleanAll_append, cleanAll, cleanAll_reverse, hacc, ihOp _ _ _ _ hop op rfl]
        · split at h
          · split at h
            · simp at h
            · cases h
              simp [cleanNode, cleanAll_append, cleanAll, cleanAll_reverse, hacc, ihOp _ _ _ _ hop op rfl]
          · simp at h


theorem step_Op (f : Nat)
    (ihTerm : ∀ txt st op st2, pTerm txt f st = Except.ok (op, st2) → ∀ n, op = some n → cleanNode n = true) :
    ∀ txt st op st2, pOperand txt (f + 1) st = Except.ok (op, st2) → ∀ n, op = some n → cleanNode n = true := by
  intro txt st op st2 h n hn
  simp only [pOperand] at h
  split at h
  · simp at h
  · cases h
    simp at hn
  · rename_i node stA hterm
    rcases hps : ppeek stA with ⟨pk, stB⟩
    rw [hps] at h
    dsimp only at h
    split at h
    · split at h
      · simp at h
      · rename_i fields stC hfields
        split at h
        · cases h
          cases hn
          rfl
        · cases h
          cases hn
          rfl
        · simp at h
        · simp at h
        · simp at h
        · simp at h
        · simp at h
        · cases h
          cases hn
          simpa [cleanNode] using ihTerm _ _ _ _ hterm node rfl
    · cases h
      cases hn
      exact ihTerm _ _ _ _ hterm n rfl

theorem step_Term (f : Nat)
    (ihPipe : ∀ txt ctx endTy st pipe tok st2, pPipeline txt ctx endTy f st = Except.ok (pipe, tok, st2) → cleanNode pipe = true) :
    ∀ txt st op st2, pTerm txt (f + 1) st = Except.ok (op, st2) → ∀ n, op = some n → cleanNode n = true := by
  intro txt st op st2 h n hn
  simp only [pTerm] at h
  rcases hts : pnextNonSpace st with ⟨token, stA⟩
  rw [hts] at h
  dsimp only at h
  split at h
  · cases h; cases hn; rfl
  · cases h; cases hn; rfl
  · cases h; cases hn; rfl
  · cases h; cases hn; rfl
  · cases h; cases hn; rfl
  · cases h; cases hn; rfl
  · split at h
    · cases h; cases hn; rfl
    · simp at h
  · split at h
    · cases h; cases hn; rfl
    · simp at h
  · split at h
    · cases h; cases hn; rfl
    · simp at h
  · split at h
    · simp at h
    · rename_i pipe tok2 stB hpipe
      cases h
      cases hn
      exact ihPipe _ _ _ _ _ _ _ hpipe
  · split at h
    · cases h; cases hn; rfl
    · simp at h
  · split at h
    · cases h; cases hn; rfl
    · simp at h
  · cases h
    simp at hn


theorem step_Elses (f : Nat)
    (ihIL : ∀ txt st list nxt st2, pItemList txt f st = Except.ok (list, nxt, st2) → cleanNode list = true ∧ cleanNode nxt = true)
    (ihElses : ∀ txt acc nxt st elses endn st2, cleanAll acc = true → cleanNode nxt = true → pElses txt acc nxt f st = Except.ok (elses, endn, st2) → cleanAll elses = true ∧ cleanNode endn = true) :
    ∀ txt acc nxt st elses endn st2, cleanAll acc = true → cleanNode nxt = true → pElses txt acc nxt (f + 1) st = Except.ok (elses, endn, st2) → cleanAll elses = true ∧ cleanNode endn = true := by
  intro txt acc nxt st elses endn st2 hacc hnxt h
  simp only [pElses] at h
  split at h
  · rename_i pos line guard oldlist etrim
    split at h
    · simp at h
    · rename_i elist nxt2 stB hil
      obtain ⟨hel, hn2⟩ := ihIL _ _ _ _ _ hil
      refine ihElses _ _ _ _ _ _ _ ?_ hn2 h
      cases guard with
      | none => simp [cleanAll_append, cleanAll, cleanNode, hacc, hel]
      | some p =>
        have hx : (cleanNode p && cleanNode oldlist) = true := hnxt
        have hp : cleanNode p = true ∧ cleanNode oldlist = true := by
          simpa using hx
        simp [cleanAll_append, cleanAll, cleanNode, hacc, hel, hp.1]
  · rename_i pos etrim
    cases h
    exact ⟨hacc, rfl⟩
  · simp at h

theorem step_Br (f : Nat)
    (ihPipe : ∀ txt ctx endTy st pipe tok st2, pPipeline txt ctx endTy f st = Except.ok (pipe, tok, st2) → cleanNode pipe = true)
    (ihIL : ∀ txt st list nxt st2, pItemList txt f st = Except.ok (list, nxt, st2) → cleanNode list = true ∧ cleanNode nxt = true)
    (ihElses : ∀ txt acc nxt st elses endn st2, cleanAll acc = true → cleanNode nxt = true → pElses txt acc nxt f st = Except.ok (elses, endn, st2) → cleanAll elses = true ∧ cleanNode endn = true) :
    ∀ txt kw trim st bnode st2, pBranchControl txt kw trim (f + 1) st = Except.ok (bnode, st2) → cleanNode bnode = true := by
  intro txt kw trim st bnode st2 h
  simp only [pBranchControl] at h
  split at h
  · simp at h
  · rename_i pipe tok stA hpipe
    split at h
    · simp at h
    · rename_i list nxt stB hil
      split at h
      · simp at h
      · rename_i elses endn stC helses
        cases h
        obtain ⟨hl, hn⟩ := ihIL _ _ _ _ _ hil
        obtain ⟨he, hend⟩ :=
          ihElses _ _ _ _ _ _ _ (show cleanAll [] = true from rfl) hn helses
        simp [cleanNode, ihPipe _ _ _ _ _ _ _ hpipe, hl, he, hend]

theorem step_ElseC (f : Nat)
    (ihPipe : ∀ txt ctx endTy st pipe tok st2, pPipeline txt ctx endTy f st = Except.ok (pipe, tok, st2) → cleanNode pipe = true) :
    ∀ txt trim st n st2, pElseControl txt trim (f + 1) st = Except.ok (n, st2) → cleanNode n = true := by
  intro txt trim st n st2 h
  simp only [pElseControl] at h
  rcases hps : ppeekNonSpace st with ⟨pk, stA⟩
  rw [hps] at h
  dsimp only at h
  split at h
  · rcases hts : pnext stA with ⟨token, stB⟩
    rw [hts] at h
    dsimp only at h
    split at h
    · simp at h
    · rename_i pipe eoptok stC hpipe
      cases h
      simp [cleanNode, ihPipe _ _ _ _ _ _ _ hpipe, cleanKids]
  · split at h
    · simp at h
    · rename_i token stB hexp
      cases h
      rfl


theorem step_IL (f : Nat)
    (ihILL : ∀ txt pos acc st list nxt st2, cleanKids acc = true → pItemListLoop txt pos acc f st = Except.ok (list, nxt, st2) → cleanNode list = true ∧ cleanNode nxt = true) :
    ∀ txt st list nxt st2, pItemList txt (f + 1) st = Except.ok (list, nxt, st2) → cleanNode list = true ∧ cleanNode nxt = true := by
  intro txt st list nxt st2 h
  simp only [pItemList] at h
  exact ihILL _ _ _ _ _ _ _ (show cleanKids [] = true from rfl) h

theorem step_ILL (f : Nat)
    (ihTOA : ∀ txt st n st2, pTextOrAction txt f st = Except.ok (n, st2) → cleanNode n = true)
    (ihILL : ∀ txt pos acc st list nxt st2, cleanKids acc = true → pItemListLoop txt pos acc f st = Except.ok (list, nxt, st2) → cleanNode list = true ∧ cleanNode nxt = true) :
    ∀ txt pos acc st list nxt st2, cleanKids acc = true → pItemListLoop txt pos acc (f + 1) st = Except.ok (list, nxt, st2) → cleanNode list = true ∧ cleanNode nxt = true := by
  intro txt pos acc st list nxt st2 hacc h
  simp only [pItemListLoop] at h
  rcases hps : ppeekNonSpace st with ⟨pk, stA⟩
  rw [hps] at h
  dsimp only at h
  split at h
  · simp at h
  · split at h
    · simp at h
    · rename_i n2 stB htoa
      split at h
      · cases h
        refine ⟨?_, ihTOA _ _ _ _ htoa⟩
        simpa [cleanNode, cleanKids_reverse] using hacc
      · rename_i hne
        simp only [Bool.or_eq_true, decide_eq_true_eq, not_or] at hne
        refine ihILL _ _ _ _ _ _ _ ?_ h
        simp [cleanKids, hne.1, hne.2, ihTOA _ _ _ _ htoa, hacc]

theorem step_PL (f : Nat)
    (ihTOA : ∀ txt st n st2, pTextOrAction txt f st = Except.ok (n, st2) → cleanNode n = true)
    (ihPL : ∀ txt pos acc st root st2, cleanKids acc = true → pParseLoop txt pos acc f st = Except.ok (root, st2) → cleanNode root = true) :
    ∀ txt pos acc st root st2, cleanKids acc = true → pParseLoop txt pos acc (f + 1) st = Except.ok (root, st2) → cleanNode root = true := by
  intro txt pos acc st root st2 hacc h
  simp only [pParseLoop] at h
  rcases hpk : ppeek st with ⟨pk, stA⟩
  rw [hpk] at h
  dsimp only at h
  split at h
  · cases h
    simpa [cleanNode, cleanKids_reverse] using hacc
  · split at h
    · simp at h
    · rename_i n2 stB htoa
      split at h
      · simp at h
      · rename_i hne
        simp only [Bool.or_eq_true, decide_eq_true_eq, not_or] at hne
        refine ihPL _ _ _ _ _ _ ?_ h
        simp [cleanKids, hne.1, hne.2, ihTOA _ _ _ _ htoa, hacc]


theorem clean_invariant : ∀ f, CleanInv f := by
  intro f
  induction f with
  | zero =>
    refine ⟨?_, ?_, ?_, ?_, ?_, ?_, ?_, ?_, ?_, ?_, ?_, ?_, ?_, ?_, ?_⟩ <;>
      intros <;>
      simp_all [pTextOrAction, pAction, pPipeline, pDecls, pPipeLoop,
        pCommand, pCommandLoop, pOperand, pTerm, pBranchControl, pElses,
        pElseControl, pItemList, pItemListLoop, pParseLoop]
  | succ f ih =>
    obtain ⟨iTOA, iAct, iPipe, iDecls, iPLoop, iCmd, iCmdLoop, iOp, iTerm,
      iBr, iElses, iElseC, iIL, iILL, iPL⟩ := ih
    exact ⟨step_TOA f iAct,
      step_Act f iElseC iBr iPipe,
      step_Pipe f iDecls iPLoop,
      step_Decls f iDecls,
      step_PLoop f iCmd iPLoop,
      step_Cmd f iCmdLoop,
      step_CmdLoop f iOp iCmdLoop,
      step_Op f iTerm,
      step_Term f iPipe,
      step_Br f iPipe iIL iElses,
      step_Elses f iIL iElses,
      step_ElseC f iPipe,
      step_IL f iILL,
      step_ILL f iTOA iILL,
      step_PL f iTOA iPL⟩


/-- C7: every parse tree the parser returns is free of stray else/end
nodes: itemList hands else and end back to its caller instead of storing
them, the top-level parse loop rejects them, and branchControl absorbs
them into the branch node, so no nList child is an nElse or nEnd and every
nElse/nEnd sits in its dedicated nBranch slot (cleanNode). -/
theorem C7_no_stray_else_end (s : List Char) (root : Node)
    (h : ParseC s = Except.ok root) : cleanNode root = true := by
  unfold ParseC at h
  cases hp : pParse s (fuelFor s) (mkState (lexAll s)) with
  | error e =>
    rw [hp] at h
    simp at h
  | ok pr =>
    obtain ⟨r, stF⟩ := pr
    rw [hp] at h
    simp at h
    subst h
    simp only [pParse] at hp
    exact (clean_invariant (fuelFor s)).2.2.2.2.2.2.2.2.2.2.2.2.2.2 _ _ _ _ _ _
      (show cleanKids [] = true from rfl) hp

theorem C7_no_stray_else_end_witness :
    ParseC (str "a") = Except.ok (Node.nList 0 [Node.nText 0 (str "a")]) ∧
    cleanNode (Node.nList 0 [Node.nText 0 (str "a")]) = true :=
  ⟨by rfl,
   C7_no_stray_else_end (str "a") (Node.nList 0 [Node.nText 0 (str "a")])
     (by rfl)⟩

/-- C10 witness: a concrete delimiter-free document (containing even a
stray right delimiter) formats to itself. -/
theorem C10_no_delim_identity_witness :
    Format "hello \x7d\x7d world" = Except.ok "hello \x7d\x7d world" :=
  C10_no_delim_identity "hello \x7d\x7d world" (by decide)

end GoTmplFmt
